import Mathlib

/-!
A verification development for a small scripting language implemented as a
single-pass bytecode compiler (`src/parser.rs`, `src/lexer.rs`, `src/opcode.rs`)
feeding a stack-based virtual machine (`src/vm.rs`) with first-class closures.

The repository mixes files from several revisions of the project: `parser.rs`,
`lexer.rs` and `opcode.rs` form one coherent older snapshot, `vm.rs` is a
separate snapshot (importing a `Func` with `bytecode`/`param_count`/
`closure_scope` fields), and `func.rs`/`list.rs` belong to a newer snapshot.
Each Rust item is embedded here from the file that defines it.

Conventions of the embedding:
* machine integers are `Nat`/`Int` with explicit wrapping (`% 2^w`) where the
  Rust code can wrap; `usize` subtraction follows two's-complement wrapping
  (release-mode semantics) via `usizeSub`;
* Rust panics (index out of bounds, `unwrap` on `None`, explicit `panic!`)
  are modelled as `Option.none` results;
* raw heap pointers (`HeapPtr<T>`) are indices into per-type stores kept in
  the state (`cells`, `boxes`, `closures`, `lists`); the bump allocator hands
  out indices in allocation order, which models its stable, distinct addresses;
* `f64` is modelled by `F64`: a rational number or NaN.  The only float fact
  the claims rely on is that `partial_cmp` returns `None` exactly when an
  operand is NaN; float arithmetic is modelled exactly on rationals (no IEEE
  rounding, no infinities).  The development proves separately that no float
  value is reachable in this VM snapshot, so float arithmetic never executes.
-/

/-! ## Machine-integer helpers -/

def usizeMod : Nat := 18446744073709551616

/-- Wrapping `usize` subtraction (Rust release semantics). -/
def usizeSub (a b : Nat) : Nat := (a + usizeMod - b) % usizeMod

/-- Wrap an integer into the `i64` range (two's complement). -/
def wrapI64 (z : Int) : Int := (z + (2 : Int) ^ 63).emod ((2 : Int) ^ 64) - (2 : Int) ^ 63

/-- Big-endian byte list of width `w` for a natural number. -/
def natBeBytes : Nat → Nat → List Nat
  | 0, _ => []
  | w + 1, n => natBeBytes w (n / 256) ++ [n % 256]

/-- `u32::to_be_bytes`. -/
def u32Be (n : Nat) : List Nat := natBeBytes 4 (n % 2 ^ 32)

/-- `i64::to_be_bytes`. -/
def i64Be (z : Int) : List Nat := natBeBytes 8 (z.emod (2 ^ 64)).toNat

/-- `u32::from_be_bytes` on a 4-byte list. -/
def beU32 (bs : List Nat) : Nat := bs.foldl (fun a b => a * 256 + b) 0

/-- `i64::from_be_bytes` on an 8-byte list. -/
def beI64 (bs : List Nat) : Int :=
  let n : Nat := bs.foldl (fun a b => a * 256 + b) 0
  if n < 2 ^ 63 then (n : Int) else (n : Int) - (2 : Int) ^ 64

/-- `take_bytes`: the slice `bytecode[pc..pc+n]`, panicking (`none`) when out
of range. -/
def readBytes (bc : List Nat) (pc n : Nat) : Option (List Nat) :=
  if pc + n ≤ bc.length then some ((bc.drop pc).take n) else none

/-! ## The float model -/

/-- Model of `f64`: a rational value or NaN (no infinities, no signed zero;
see the header comment).  -/
inductive F64 where
  | num (q : ℚ)
  | nan
deriving DecidableEq

namespace F64

def add : F64 → F64 → F64
  | num a, num b => num (a + b)
  | _, _ => nan

def sub : F64 → F64 → F64
  | num a, num b => num (a - b)
  | _, _ => nan

def mul : F64 → F64 → F64
  | num a, num b => num (a * b)
  | _, _ => nan

def div : F64 → F64 → F64
  | num a, num b => if b = 0 then nan else num (a / b)
  | _, _ => nan

/-- Rust `%` on floats (`fmod`); exact on rationals, NaN-propagating. -/
def fmod : F64 → F64 → F64
  | num a, num b =>
    if b = 0 then nan
    else num (a - b * (Rat.floor (a / b) : ℚ))
  | _, _ => nan

/-- `f64::partial_cmp`: `None` exactly when an operand is NaN. -/
def pcmp : F64 → F64 → Option Ordering
  | num a, num b => some (compare a b)
  | _, _ => none

/-- `f64 == f64` (IEEE: NaN is not equal to anything, including itself). -/
def feq : F64 → F64 → Bool
  | num a, num b => a == b
  | _, _ => false

end F64

/-! ## Opcodes (`src/opcode.rs`, the enum as declared there, discriminants
0..=27 via `TryFromPrimitive`/`IntoPrimitive`) -/

inductive Opcode where
  | add | subtract | multiply | divide | modulus
  | equal | notEqual | less | greater | lessOrEqual | greaterOrEqual
  | pushInt | pushTrue | pushFalse | pushNone | pushFunc | pushLoad
  | pushClosureLoad | pushList
  | popStore | popPrint | popClosureStore
  | jump | jumpIfNot | dropN
  | call | ret
  | finish
deriving DecidableEq

namespace Opcode

/-- `Opcode as u8` (`IntoPrimitive`): declaration order in `opcode.rs`. -/
def toByte : Opcode → Nat
  | add => 0 | subtract => 1 | multiply => 2 | divide => 3 | modulus => 4
  | equal => 5 | notEqual => 6 | less => 7 | greater => 8
  | lessOrEqual => 9 | greaterOrEqual => 10
  | pushInt => 11 | pushTrue => 12 | pushFalse => 13 | pushNone => 14
  | pushFunc => 15 | pushLoad => 16 | pushClosureLoad => 17 | pushList => 18
  | popStore => 19 | popPrint => 20 | popClosureStore => 21
  | jump => 22 | jumpIfNot => 23 | dropN => 24
  | call => 25 | ret => 26
  | finish => 27

/-- `u8 -> Opcode` (`TryFromPrimitive`); `None` is the `unwrap` panic. -/
def ofByte : Nat → Option Opcode
  | 0 => some add | 1 => some subtract | 2 => some multiply | 3 => some divide
  | 4 => some modulus
  | 5 => some equal | 6 => some notEqual | 7 => some less | 8 => some greater
  | 9 => some lessOrEqual | 10 => some greaterOrEqual
  | 11 => some pushInt | 12 => some pushTrue | 13 => some pushFalse
  | 14 => some pushNone | 15 => some pushFunc | 16 => some pushLoad
  | 17 => some pushClosureLoad | 18 => some pushList
  | 19 => some popStore | 20 => some popPrint | 21 => some popClosureStore
  | 22 => some jump | 23 => some jumpIfNot | 24 => some dropN
  | 25 => some call | 26 => some ret
  | 27 => some finish
  | _ => none

end Opcode

/-! ## Runtime data model (`src/vm.rs`) -/

/-- `vm.rs` `Value`.  Heap pointers are indices into the corresponding store
of `VMState` (`closures` resp. `lists` via `HeapValue`). -/
inductive Value where
  | int (i : Int)
  | float (x : F64)
  | bool (b : Bool)
  | closure (p : Nat)
  | heapValue (p : Nat)
  | none
deriving DecidableEq

/-- `impl PartialEq for Value` in `vm.rs`: equality within Int/Float/Bool/None
only; every other pairing (including two closures or two lists) is `false`. -/
def valueEq : Value → Value → Bool
  | .int a, .int b => a == b
  | .float a, .float b => F64.feq a b
  | .bool a, .bool b => a == b
  | .none, .none => true
  | _, _ => false

/-- `func.rs` `ClosureValue`: a capture descriptor. -/
inductive ClosureValue where
  | outer (i : Nat)
  | stack (i : Nat)
deriving DecidableEq

/-- The compiled function record consumed by `vm.rs` (`func.rs` `Func`). -/
structure Func where
  bytecode : List Nat
  param_count : Nat
  closure_scope : List ClosureValue
  param_names : List Nat
deriving DecidableEq

/-- `vm.rs` `ClosureValueRef`: an upvalue cell, open (`Stack`, an absolute
data-stack index) or closed (`Heap`, an index into `boxes`). -/
inductive ClosureValueRef where
  | stack (i : Nat)
  | heap (p : Nat)
deriving DecidableEq

/-- `vm.rs` `Closure`: the `&Func` reference is modelled by an index into the
function table, the upvalue-cell pointers by indices into `cells`. -/
structure Closure where
  funcIdx : Nat
  closureValues : List Nat
deriving DecidableEq

/-- `vm.rs` `Call` (a call frame). -/
structure CallFrame where
  pc : Nat
  frame : Nat
  closure : Nat
deriving DecidableEq

/-- The upvalue registry `closure_ref_map : HashMap<usize, Vec<HeapPtr<...>>>`
modelled as an association list with unique keys (insertion order; the map is
never iterated, only read/updated per key, so ordering is irrelevant). -/
def RefMap : Type := List (Nat × List Nat)

instance : DecidableEq RefMap := by
  unfold RefMap
  infer_instance

def refGet (m : RefMap) (k : Nat) : Option (List Nat) :=
  (List.find? (fun e => e.1 == k) m).map (fun e => e.2)

/-- `HashMap::remove`. -/
def refRemove (m : RefMap) (k : Nat) : RefMap :=
  List.filter (fun e => !(e.1 == k)) m

/-- `map.entry(k).or_insert(vec![]).push(c)`. -/
def refPush (m : RefMap) (k c : Nat) : RefMap :=
  if List.any m (fun e => e.1 == k) then
    List.map (fun e => if e.1 == k then (e.1, e.2 ++ [c]) else e) m
  else
    List.append m [(k, [c])]

/-- The whole `VirtualMachine` state.  `output` records `PopPrint`ed values
(printing itself is I/O and not modelled further). -/
structure VMState where
  funcs : List Func
  call : CallFrame
  stack : List Value
  callStack : List CallFrame
  closures : List Closure
  cells : List ClosureValueRef
  boxes : List Value
  lists : List (List Value)
  refMap : RefMap
  output : List Value
  finished : Bool
deriving DecidableEq

/-- `stack.pop()`: top of the stack is the last list entry, so that absolute
stack indices (`frame + slot`) are plain list positions. -/
def popV (st : List Value) : Option (Value × List Value) :=
  match st.getLast? with
  | Option.none => Option.none
  | some v => some (v, st.dropLast)

/-! ## The interpreter step (`VirtualMachine::step` and helpers) -/

/-- `VirtualMachine::arithmetic_op`.  The integer operation is partial
(division/remainder panic on zero or `i64::MIN / -1`).  Note the code pops
`a` (top) then `b` and computes `b OP a`. -/
def arithmeticOp (s : VMState) (pc' : Nat)
    (intOp : Int → Int → Option Int) (floatOp : F64 → F64 → F64) :
    Option VMState :=
  match popV s.stack with
  | Option.none => Option.none
  | some (a, st1) =>
    match popV st1 with
    | Option.none => Option.none
    | some (b, st2) =>
      let push : Value → VMState := fun v =>
        { s with stack := st2 ++ [v], call := { s.call with pc := pc' } }
      match a, b with
      | .int x, .int y => (intOp y x).map (fun r => push (.int r))
      | .int x, .float y => some (push (.float (floatOp y (.num (x : ℚ)))))
      | .float x, .int y => some (push (.float (floatOp (.num (y : ℚ)) x)))
      | .float x, .float y => some (push (.float (floatOp y x)))
      | _, _ => Option.none

/-- The match inside `VirtualMachine::comparison_op`: which ordering (if
any) the pairing produces.  The first value is the first pop (the top);
`partial_cmp` arms yield `none` on a NaN operand (the `unwrap` panic) and
every pairing outside Int/Float yields `none` (the `panic!()` arm). -/
def cmpOrd : Value → Value → Option Ordering
  | .int b, .int a => some (compare a b)
  | .int b, .float a => F64.pcmp a (.num (b : ℚ))
  | .float b, .int a => F64.pcmp (.num (a : ℚ)) b
  | .float b, .float a => F64.pcmp a b
  | _, _ => Option.none

/-- `VirtualMachine::comparison_op`: defined across Int/Float pairings only;
`partial_cmp(..).unwrap()` panics (`none`) when the ordering is absent
(a NaN operand); every other pairing of variants panics. -/
def comparisonOp (s : VMState) (pc' : Nat) (f : Ordering → Bool) :
    Option VMState :=
  match popV s.stack with
  | Option.none => Option.none
  | some (p1, st1) =>
    match popV st1 with
    | Option.none => Option.none
    | some (p2, st2) =>
      match cmpOrd p1 p2 with
      | Option.none => Option.none
      | some o =>
        some { s with stack := st2 ++ [.bool (f o)],
                      call := { s.call with pc := pc' } }

/-- `VirtualMachine::drop`: pop the top slot; if open upvalue cells are
registered under its index, allocate one heap box holding the popped value
and close every registered cell onto that box, then remove the registry
entry.  The program counter is untouched (callers advance it). -/
def dropOne (s : VMState) : Option VMState :=
  match popV s.stack with
  | Option.none => Option.none
  | some (v, st) =>
    let key := st.length
    match refGet s.refMap key with
    | Option.none => some { s with stack := st }
    | some lst =>
      let m := refRemove s.refMap key
      if lst.isEmpty then
        some { s with stack := st, refMap := m }
      else
        let bid := s.boxes.length
        some { s with
               stack := st, refMap := m,
               boxes := s.boxes ++ [v],
               cells := lst.foldl (fun cs c => cs.set c (.heap bid)) s.cells }

/-- `n` successive `VirtualMachine::drop` calls (the `Drop n` operand loop and
the `Return` parameter loop). -/
def iterDrop : Nat → VMState → Option VMState
  | 0, s => some s
  | n + 1, s =>
    match dropOne s with
    | Option.none => Option.none
    | some s' => iterDrop n s'

/-- Building the `closure_values` vector at `PushFunc`: `Outer(i)` reuses (by
pointer) the current closure's cell `i`; `Stack(r)` allocates a fresh open
cell at absolute index `frame + r` and registers it.  Returns the cell-id
vector together with the updated cell store and registry. -/
def buildCvs (fr : Nat) (cur : Closure) :
    List ClosureValue → List ClosureValueRef → RefMap →
    Option (List Nat × List ClosureValueRef × RefMap)
  | [], cells, m => some ([], cells, m)
  | .outer i :: rest, cells, m =>
    match cur.closureValues.get? i with
    | Option.none => Option.none
    | some cid =>
      (buildCvs fr cur rest cells m).map
        (fun r => (cid :: r.1, r.2.1, r.2.2))
  | .stack rel :: rest, cells, m =>
    let idx := fr + rel
    let cid := cells.length
    (buildCvs fr cur rest (cells ++ [.stack idx]) (refPush m idx cid)).map
      (fun r => (cid :: r.1, r.2.1, r.2.2))

/-- One opcode's execution, given the current closure `cl` and its function
`f`; `s.call.pc` still points at the opcode byte. -/
def execOp (s : VMState) (cl : Closure) (f : Func) (op : Opcode) :
    Option VMState :=
  let pc1 := s.call.pc + 1
  match op with
  | .add =>
    arithmeticOp s pc1 (fun a b => some (wrapI64 (a + b))) F64.add
  | .subtract =>
    arithmeticOp s pc1 (fun a b => some (wrapI64 (a - b))) F64.sub
  | .multiply =>
    arithmeticOp s pc1 (fun a b => some (wrapI64 (a * b))) F64.mul
  | .divide =>
    arithmeticOp s pc1
      (fun a b =>
        if b = 0 ∨ (a = -(2 : Int) ^ 63 ∧ b = -1) then Option.none
        else some (Int.tdiv a b))
      F64.div
  | .modulus =>
    arithmeticOp s pc1
      (fun a b =>
        if b = 0 ∨ (a = -(2 : Int) ^ 63 ∧ b = -1) then Option.none
        else some (Int.tmod a b))
      F64.fmod
  | .equal =>
    match popV s.stack with
    | Option.none => Option.none
    | some (a, st1) =>
      match popV st1 with
      | Option.none => Option.none
      | some (b, st2) =>
        some { s with stack := st2 ++ [.bool (valueEq a b)],
                      call := { s.call with pc := pc1 } }
  | .notEqual =>
    match popV s.stack with
    | Option.none => Option.none
    | some (a, st1) =>
      match popV st1 with
      | Option.none => Option.none
      | some (b, st2) =>
        some { s with stack := st2 ++ [.bool (!valueEq a b)],
                      call := { s.call with pc := pc1 } }
  | .less => comparisonOp s pc1 (fun o => o == Ordering.lt)
  | .greater => comparisonOp s pc1 (fun o => o == Ordering.gt)
  | .lessOrEqual => comparisonOp s pc1 (fun o => !(o == Ordering.gt))
  | .greaterOrEqual => comparisonOp s pc1 (fun o => !(o == Ordering.lt))
  | .pushInt =>
    match readBytes f.bytecode pc1 8 with
    | Option.none => Option.none
    | some bs =>
      some { s with stack := s.stack ++ [.int (beI64 bs)],
                    call := { s.call with pc := pc1 + 8 } }
  | .pushTrue =>
    some { s with stack := s.stack ++ [.bool true],
                  call := { s.call with pc := pc1 } }
  | .pushFalse =>
    some { s with stack := s.stack ++ [.bool false],
                  call := { s.call with pc := pc1 } }
  | .pushNone =>
    some { s with stack := s.stack ++ [.none],
                  call := { s.call with pc := pc1 } }
  | .pushLoad =>
    match f.bytecode.get? pc1 with
    | Option.none => Option.none
    | some idx =>
      match s.stack.get? (s.call.frame + idx) with
      | Option.none => Option.none
      | some v =>
        some { s with stack := s.stack ++ [v],
                      call := { s.call with pc := pc1 + 1 } }
  | .pushClosureLoad =>
    match f.bytecode.get? pc1 with
    | Option.none => Option.none
    | some idx =>
      match cl.closureValues.get? idx with
      | Option.none => Option.none
      | some cid =>
        match s.cells.get? cid with
        | Option.none => Option.none
        | some (.stack i) =>
          match s.stack.get? i with
          | Option.none => Option.none
          | some v =>
            some { s with stack := s.stack ++ [v],
                          call := { s.call with pc := pc1 + 1 } }
        | some (.heap p) =>
          match s.boxes.get? p with
          | Option.none => Option.none
          | some v =>
            some { s with stack := s.stack ++ [v],
                          call := { s.call with pc := pc1 + 1 } }
  | .pushFunc =>
    match readBytes f.bytecode pc1 4 with
    | Option.none => Option.none
    | some bs =>
      let fid := beU32 bs
      let idx := usizeSub s.funcs.length fid
      match s.funcs.get? idx with
      | Option.none => Option.none
      | some tf =>
        match buildCvs s.call.frame cl tf.closure_scope s.cells s.refMap with
        | Option.none => Option.none
        | some (ids, cells', m') =>
          some { s with
                 stack := s.stack ++ [.closure s.closures.length],
                 closures := s.closures ++ [⟨idx, ids⟩],
                 cells := cells', refMap := m',
                 call := { s.call with pc := pc1 + 4 } }
  | .pushList =>
    match readBytes f.bytecode pc1 4 with
    | Option.none => Option.none
    | some bs =>
      let n := beU32 bs
      if n ≤ s.stack.length then
        let elems := s.stack.reverse.take n
        let st := s.stack.take (s.stack.length - n)
        some { s with
               stack := st ++ [.heapValue s.lists.length],
               lists := s.lists ++ [elems],
               call := { s.call with pc := pc1 + 4 } }
      else Option.none
  | .popStore =>
    match f.bytecode.get? pc1 with
    | Option.none => Option.none
    | some idx =>
      match popV s.stack with
      | Option.none => Option.none
      | some (v, st) =>
        if s.call.frame + idx < st.length then
          some { s with stack := st.set (s.call.frame + idx) v,
                        call := { s.call with pc := pc1 + 1 } }
        else Option.none
  | .popClosureStore =>
    match f.bytecode.get? pc1 with
    | Option.none => Option.none
    | some idx =>
      match popV s.stack with
      | Option.none => Option.none
      | some (v, st) =>
        match cl.closureValues.get? idx with
        | Option.none => Option.none
        | some cid =>
          match s.cells.get? cid with
          | Option.none => Option.none
          | some (.stack i) =>
            if i < st.length then
              some { s with stack := st.set i v,
                            call := { s.call with pc := pc1 + 1 } }
            else Option.none
          | some (.heap p) =>
            some { s with stack := st, boxes := s.boxes.set p v,
                          call := { s.call with pc := pc1 + 1 } }
  | .popPrint =>
    match popV s.stack with
    | Option.none => Option.none
    | some (v, st) =>
      some { s with stack := st, output := s.output ++ [v],
                    call := { s.call with pc := pc1 } }
  | .jump =>
    match readBytes f.bytecode pc1 4 with
    | Option.none => Option.none
    | some bs =>
      some { s with call := { s.call with pc := beU32 bs } }
  | .jumpIfNot =>
    match readBytes f.bytecode pc1 4 with
    | Option.none => Option.none
    | some bs =>
      match popV s.stack with
      | Option.none => Option.none
      | some (.bool b, st) =>
        some { s with stack := st,
                      call := { s.call with
                                pc := if b then pc1 + 4 else beU32 bs } }
      | some _ => Option.none
  | .dropN =>
    match f.bytecode.get? pc1 with
    | Option.none => Option.none
    | some n =>
      match iterDrop n { s with call := { s.call with pc := pc1 + 1 } } with
      | Option.none => Option.none
      | some s' => some s'
  | .call =>
    match popV s.stack with
    | Option.none => Option.none
    | some (.closure p, st) =>
      match f.bytecode.get? pc1 with
      | Option.none => Option.none
      | some argc =>
        match s.closures.get? p with
        | Option.none => Option.none
        | some cl2 =>
          match s.funcs.get? cl2.funcIdx with
          | Option.none => Option.none
          | some f2 =>
            if argc ≠ f2.param_count then Option.none
            else
              some { s with
                     stack := st,
                     callStack := s.callStack ++
                       [{ pc := pc1 + 1, frame := s.call.frame,
                          closure := s.call.closure }],
                     call := { pc := 0,
                               frame := usizeSub (usizeSub st.length argc) 1,
                               closure := p } }
    | some _ => Option.none
  | .ret =>
    match iterDrop f.param_count s with
    | Option.none => Option.none
    | some s' =>
      match s'.callStack.getLast? with
      | Option.none => Option.none
      | some c =>
        some { s' with call := c, callStack := s'.callStack.dropLast }
  | .finish =>
    some { s with finished := true, call := { s.call with pc := pc1 } }

/-- `VirtualMachine::step`: fetch, decode, execute.  `none` is a fatal
runtime error (a Rust panic). -/
def step (s : VMState) : Option VMState :=
  match s.closures.get? s.call.closure with
  | Option.none => Option.none
  | some cl =>
    match s.funcs.get? cl.funcIdx with
    | Option.none => Option.none
    | some f =>
      match f.bytecode.get? s.call.pc with
      | Option.none => Option.none
      | some b =>
        match Opcode.ofByte b with
        | Option.none => Option.none
        | some op => execOp s cl f op

/-- Cell allocation in `VirtualMachine::run` for the entry function's capture
descriptors: `Outer` descriptors panic, `Stack(i)` allocates an open cell at
raw stack index `i` and registers it. -/
def initCvs : List ClosureValue → List ClosureValueRef → RefMap →
    Option (List Nat × List ClosureValueRef × RefMap)
  | [], cells, m => some ([], cells, m)
  | .outer _ :: _, _, _ => Option.none
  | .stack i :: rest, cells, m =>
    let cid := cells.length
    (initCvs rest (cells ++ [.stack i]) (refPush m i cid)).map
      (fun r => (cid :: r.1, r.2.1, r.2.2))

/-- `VirtualMachine::run`'s construction of the initial state.  The
`entry_func : &Func` reference is represented by the index of the entry
function in the table. -/
def initVM (funcs : List Func) (entryIdx : Nat) : Option VMState :=
  match funcs.get? entryIdx with
  | Option.none => Option.none
  | some entry =>
    match initCvs entry.closure_scope [] [] with
    | Option.none => Option.none
    | some (ids, cells, m) =>
      some { funcs := funcs,
             call := { pc := 0, frame := 0, closure := 0 },
             stack := [], callStack := [],
             closures := [⟨entryIdx, ids⟩],
             cells := cells, boxes := [], lists := [],
             refMap := m, output := [], finished := false }

/-- Reachability in the interpreter loop: zero or more `step`s. -/
def StepsTo (a b : VMState) : Prop :=
  Relation.ReflTransGen (fun x y => step x = some y) a b

/-! ## The lexer (`src/lexer.rs`)

The source is a `List Char`; the lexer state is the unconsumed suffix
(`source[offset..]`), so `Lexer::is_end` is emptiness of that suffix.
`Position` tracking (line/column) is for error pretty-printing only and is
not modelled.  Rust's Unicode character classes `is_alphabetic`/`is_numeric`/
`is_whitespace` are modelled by Lean's ASCII `Char.isAlpha`/`Char.isDigit`/
`Char.isWhitespace`; no claim depends on the treatment of non-ASCII input.
Punctuation characters are compared through their code points to keep the
file free of bracket character literals. -/

inductive TokTy where
  | ident | int | strLit | invalid | endTok
  | kwTrue | kwFalse | kwNone
  | kwVar | kwWhile | kwIf | kwElse | kwFunc | kwReturn | kwPrint
  | openBrace | closeBrace | openCurlyBrace | closeCurlyBrace
  | openSquareBrace | closeSquareBrace | semiColon | comma
  | plus | minus | multiply | divide | modulus
  | plusEquals | minusEquals | multiplyEquals | divideEquals | modulusEquals
  | notTok | notEqual | equals | doubleEquals
  | less | lessOrEqual | greater | greaterOrEqual
  | andTok | orTok
deriving DecidableEq

/-- `Token { ty, source }` (the `pos` field is not modelled). -/
structure Tok where
  ty : TokTy
  src : String
deriving DecidableEq

/-- Keyword table of `Lexer::next_token`'s alphabetic arm. -/
def keywordTy (s : String) : TokTy :=
  if s = "true" then .kwTrue
  else if s = "false" then .kwFalse
  else if s = "none" then .kwNone
  else if s = "var" then .kwVar
  else if s = "while" then .kwWhile
  else if s = "if" then .kwIf
  else if s = "else" then .kwElse
  else if s = "func" then .kwFunc
  else if s = "return" then .kwReturn
  else if s = "print" then .kwPrint
  else .ident

/-- Single-character punctuation (by code point). -/
def singleTokTy (n : Nat) : Option TokTy :=
  if n = 40 then some .openBrace            -- left parenthesis
  else if n = 41 then some .closeBrace      -- right parenthesis
  else if n = 123 then some .openCurlyBrace
  else if n = 125 then some .closeCurlyBrace
  else if n = 91 then some .openSquareBrace
  else if n = 93 then some .closeSquareBrace
  else if n = 59 then some .semiColon
  else if n = 44 then some .comma
  else Option.none

/-- `double_char_token_if` dispatch: char code, expected second char code,
single-char token, two-char token. -/
def doubleTokTy (n : Nat) : Option (Nat × TokTy × TokTy) :=
  if n = 43 then some (61, .plus, .plusEquals)
  else if n = 45 then some (61, .minus, .minusEquals)
  else if n = 42 then some (61, .multiply, .multiplyEquals)
  else if n = 47 then some (61, .divide, .divideEquals)
  else if n = 37 then some (61, .modulus, .modulusEquals)
  else if n = 33 then some (61, .notTok, .notEqual)
  else if n = 61 then some (61, .equals, .doubleEquals)
  else if n = 60 then some (61, .less, .lessOrEqual)
  else if n = 62 then some (61, .greater, .greaterOrEqual)
  else if n = 38 then some (38, .invalid, .andTok)
  else if n = 124 then some (124, .invalid, .orTok)
  else Option.none

/-- `Lexer::next_token`.  Returns the token and the remaining input.  In the
two-char arm the Rust code calls `self.next()` — the *Iterator* method, i.e.
`next_token` — and discards its result, so e.g. `+==` is consumed as one
`PlusEquals` token; the model reproduces this by a recursive call.  A string
token does not consume its closing quote (faithful to the source). -/
def nextTokenF : Nat → List Char → Tok × List Char
  | 0, l => (⟨.endTok, ""⟩, l)
  | _ + 1, [] => (⟨.endTok, ""⟩, [])
  | fuel + 1, c :: cs =>
    if c.isAlpha then
      let w := (c :: cs).takeWhile Char.isAlphanum
      (⟨keywordTy (String.mk w), String.mk w⟩, (c :: cs).dropWhile Char.isAlphanum)
    else if c.isDigit then
      let w := (c :: cs).takeWhile Char.isDigit
      (⟨.int, String.mk w⟩, (c :: cs).dropWhile Char.isDigit)
    else if c.isWhitespace then
      nextTokenF fuel (cs.dropWhile Char.isWhitespace)
    else if c.toNat = 34 then        -- a double quote
      let w := cs.takeWhile (fun d => !(d.toNat = 34))
      let rest := cs.dropWhile (fun d => !(d.toNat = 34))
      if rest.isEmpty then (⟨.invalid, String.mk (c :: w)⟩, rest)
      else (⟨.strLit, String.mk (c :: w)⟩, rest)
    else
      match singleTokTy c.toNat with
      | some ty => (⟨ty, String.mk [c]⟩, cs)
      | Option.none =>
        match doubleTokTy c.toNat with
        | some (expected, sty, dty) =>
          match cs with
          | d :: ds =>
            if d.toNat = expected then
              let r := nextTokenF fuel (d :: ds)
              (⟨dty, String.mk ((c :: d :: ds).take
                 ((c :: d :: ds).length - r.2.length))⟩,
               r.2)
            else (⟨sty, String.mk [c]⟩, d :: ds)
          | [] => (⟨sty, String.mk [c]⟩, [])
        | Option.none => (⟨.invalid, String.mk [c]⟩, cs)

/-- `Lexer::next_token` proper: every recursive call of `nextTokenF` strictly
shortens the input, so `length + 1` units of fuel always suffice and the
fuel is only a guardedness device. -/
def nextToken (l : List Char) : Tok × List Char :=
  nextTokenF (l.length + 1) l

/-! ## The compiler (`src/parser.rs`, the snapshot defining its own `Func`,
`ClosureVarDecl`, `CompletedFunc` and `Parser` types) -/

/-- `parser.rs` `ClosureVarDecl`. -/
structure ClosureVarDecl where
  name : String
  val : ClosureValue
deriving DecidableEq

/-- `parser.rs` `Func` (the per-function compile state). -/
structure PFunc where
  bytecode : List Nat
  param_count : Nat
  scope : List String
  closure_scope : List ClosureVarDecl
deriving DecidableEq

/-- `parser.rs` `CompletedFunc`. -/
structure CompletedFunc where
  bytecode : List Nat
  param_count : Nat
  scope : List String
  closure_scope : List ClosureValue
deriving DecidableEq

/-- `CompletedFunc::new`. -/
def CompletedFunc.ofFunc (f : PFunc) : CompletedFunc :=
  ⟨f.bytecode, f.param_count, f.scope, f.closure_scope.map (fun d => d.val)⟩

/-- `parser.rs` `Variable`. -/
inductive PVar where
  | stack (offset : Nat)
  | closVar (index : Nat)
deriving DecidableEq

/-- `parser.rs` `Precedence` with its derived `PartialOrd`
(declaration order: Product < Sum < Relational < Equality < Top). -/
inductive Precedence where
  | product | sum | relational | equality | top
deriving DecidableEq

def Precedence.rank : Precedence → Nat
  | product => 0 | sum => 1 | relational => 2 | equality => 3 | top => 4

inductive Assoc where
  | left | right

/-- `parser.rs` `ParsedInfixOp`. -/
inductive ParsedOp where
  | complete (opcode : Opcode) (prec : Precedence)
  | incomplete (prec : Precedence) (token : TokTy)

/-- `ParsedInfixOp::parse_infix_op`: adopt the operator when the token
matches and its precedence passes the associativity test against the
current precedence (`<=` for `Assoc::Left`, `<` for `Assoc::Right`). -/
def ParsedOp.tryOp (p : ParsedOp) (opToken : TokTy) (prec : Precedence)
    (opcode : Opcode) (assoc : Assoc) : ParsedOp :=
  match p with
  | .incomplete curPrec token =>
    if (match assoc with
        | .left => decide (prec.rank ≤ curPrec.rank)
        | .right => decide (prec.rank < curPrec.rank))
       && (token == opToken) then
      .complete opcode prec
    else
      .incomplete curPrec token
  | c => c

/-- The `Parser` state: lexer suffix, one-token lookahead, current `Func`,
the enclosing-function stack and the completed-function table. -/
structure PState where
  lex : List Char
  tok : Tok
  func : PFunc
  funcStack : List PFunc
  finishedFuncs : List CompletedFunc
deriving DecidableEq

/-- Compile errors: `MissingInput` (end of stream) or a parser panic. -/
inductive PErr where
  | missingInput
  | fatal
deriving DecidableEq

/-- `Parser::next`. -/
def pAdvance (s : PState) : PState :=
  let r := nextToken s.lex
  { s with tok := r.1, lex := r.2 }

/-- `Parser::eat`. -/
def pEat (s : PState) (ty : TokTy) : Bool × PState :=
  if s.tok.ty = ty then (true, pAdvance s) else (false, s)

/-- `Parser::invalid_token` (which always fails: `MissingInput` at stream
end, otherwise a panic). -/
def pInvalid (s : PState) : PErr :=
  if s.tok.ty = .endTok then .missingInput else .fatal

/-- Append bytes to the current function's bytecode. -/
def pfPush (s : PState) (bs : List Nat) : PState :=
  { s with func := { s.func with bytecode := s.func.bytecode ++ bs } }

/-- `Func::resolve_var` in `parser.rs`: scan the scope vector in reverse and
return the index of the *last* (most recently defined) match, as `u8`. -/
def PFunc.resolveVar (f : PFunc) (name : String) : Option Nat :=
  (f.scope.enum.reverse.find? (fun p => p.2 == name)).map (fun p => p.1 % 256)

/-- The reverse scan of `closure_scope` at the start of
`Parser::resolve_closure_index`. -/
def closureScopeFind (cs : List ClosureVarDecl) (name : String) : Option Nat :=
  (cs.enum.reverse.find? (fun p => p.2.name == name)).map (fun p => p.1 % 256)

/-- `Parser::resolve_closure_index` on the function stack; returns the
resolved capture and the updated stack (the code pushes a descriptor into
each enclosing builder it walks through).  `none` covers both an unresolved
name and the out-of-bounds panic; the caller panics on `none` either way. -/
def resolveClosureIndex (name : String) : Nat → List PFunc →
    Option (ClosureValue × List PFunc)
  | i, stk =>
    match stk.get? i with
    | Option.none => Option.none
    | some func =>
      match closureScopeFind func.closure_scope name with
      | some idx => some (.outer idx, stk)
      | Option.none =>
        match func.resolveVar name with
        | some idx => some (.stack idx, stk)
        | Option.none =>
          match i with
          | 0 => Option.none
          | j + 1 =>
            match resolveClosureIndex name j stk with
            | Option.none => Option.none
            | some (cv, stk1) =>
              match stk1.get? (j + 1) with
              | Option.none => Option.none
              | some f1 =>
                let ci := f1.closure_scope.length
                some (.outer (ci % 256),
                      stk1.set (j + 1)
                        { f1 with closure_scope :=
                            f1.closure_scope ++ [⟨name, cv⟩] })

/-- `Parser::resolve_var`; `none` is the `panic!()` on an unresolved name. -/
def pResolveVar (s : PState) (name : String) : Option (PVar × PState) :=
  match s.func.resolveVar name with
  | some offset => some (.stack offset, s)
  | Option.none =>
    match resolveClosureIndex name (usizeSub s.funcStack.length 1)
        s.funcStack with
    | some (cv, stk1) =>
      let ci := s.func.closure_scope.length
      some (.closVar (ci % 256),
            { s with funcStack := stk1,
                     func := { s.func with closure_scope :=
                         s.func.closure_scope ++ [⟨name, cv⟩] } })
    | Option.none => Option.none

/-- `Func::push_var`. -/
def pvPush (s : PState) (v : PVar) : PState :=
  match v with
  | .stack offset => pfPush s [Opcode.pushLoad.toByte, offset]
  | .closVar index => pfPush s [Opcode.pushClosureLoad.toByte, index]

/-- `Func::pop_var`. -/
def pvPop (s : PState) (v : PVar) : PState :=
  match v with
  | .stack offset => pfPush s [Opcode.popStore.toByte, offset]
  | .closVar index => pfPush s [Opcode.popClosureStore.toByte, index]

/-- `Func::push_jump`: emit `Jump` with a 4-byte zero placeholder; the
returned offset points at the placeholder. -/
def pJump (s : PState) : Nat × PState :=
  (s.func.bytecode.length + 1, pfPush s [Opcode.jump.toByte, 0, 0, 0, 0])

/-- `Func::push_jump_if_not`. -/
def pJumpIfNot (s : PState) : Nat × PState :=
  (s.func.bytecode.length + 1, pfPush s [Opcode.jumpIfNot.toByte, 0, 0, 0, 0])

/-- `Func::connect_jump`: overwrite the 4-byte placeholder at `j` with the
big-endian target. -/
def pConnect (s : PState) (j target : Nat) : PState :=
  { s with func := { s.func with bytecode :=
      (s.func.bytecode.take j ++ u32Be target ++
       s.func.bytecode.drop (j + 4)) } }

/-- `str::parse::<i64>` on a digit-only token (`none` is the overflow
panic; the lexer only produces decimal-digit sources for `Int` tokens). -/
def parseI64 (s : String) : Option Int :=
  let n : Nat := s.toList.foldl (fun a c => a * 10 + (c.toNat - 48)) 0
  if n ≤ 2 ^ 63 - 1 then some (n : Int) else Option.none

/-- Tail of `Parser::parse_call` after the argument list: resolve the callee,
push it, and emit `Call argc`. -/
def emitCallEnd (name : String) (argc : Nat) (s : PState) :
    Except PErr PState :=
  match pResolveVar s name with
  | Option.none => .error .fatal
  | some (v, s1) =>
    .ok (pfPush (pvPush s1 v) [Opcode.call.toByte, argc % 256])

mutual

/-- `Parser::parse_call` (the lookahead token is the opening parenthesis). -/
def parseCall : Nat → String → PState → Except PErr PState
  | 0, _, _ => .error .fatal
  | fuel + 1, name, s =>
    let s1 := pAdvance s
    let s2 := pfPush s1 [Opcode.pushNone.toByte]
    let r := pEat s2 .closeBrace
    if r.1 then emitCallEnd name 0 r.2
    else
      match parseCallArgs fuel 0 r.2 with
      | .error e => .error e
      | .ok (argc, s3) =>
        let r2 := pEat s3 .closeBrace
        if r2.1 then emitCallEnd name argc r2.2
        else .error (pInvalid r2.2)

/-- The argument loop of `Parser::parse_call`. -/
def parseCallArgs : Nat → Nat → PState → Except PErr (Nat × PState)
  | 0, _, _ => .error .fatal
  | fuel + 1, argc, s =>
    match parseExpr fuel s with
    | .error e => .error e
    | .ok s1 =>
      let r := pEat s1 .comma
      if r.1 then parseCallArgs fuel (argc + 1) r.2
      else .ok (argc + 1, r.2)

/-- `Parser::parse_value`. -/
def parseValue : Nat → PState → Except PErr PState
  | 0, _ => .error .fatal
  | fuel + 1, s =>
    match s.tok.ty with
    | .ident =>
      let name := s.tok.src
      let s1 := pAdvance s
      if s1.tok.ty = .openBrace then parseCall fuel name s1
      else
        match pResolveVar s1 name with
        | Option.none => .error .fatal
        | some (v, s2) => .ok (pvPush s2 v)
    | .int =>
      match parseI64 s.tok.src with
      | Option.none => .error .fatal
      | some c =>
        .ok (pfPush (pAdvance s) (Opcode.pushInt.toByte :: i64Be c))
    | .kwTrue => .ok (pfPush (pAdvance s) [Opcode.pushTrue.toByte])
    | .kwFalse => .ok (pfPush (pAdvance s) [Opcode.pushFalse.toByte])
    | .kwNone => .ok (pfPush (pAdvance s) [Opcode.pushNone.toByte])
    | .openBrace =>
      match parseExpr fuel (pAdvance s) with
      | .error e => .error e
      | .ok s1 =>
        let r := pEat s1 .closeBrace
        if r.1 then .ok r.2 else .error (pInvalid r.2)
    | .openSquareBrace =>
      let s1 := pAdvance s
      let r := pEat s1 .closeSquareBrace
      if r.1 then .ok (pfPush r.2 (Opcode.pushList.toByte :: u32Be 0))
      else
        match parseListItems fuel 0 r.2 with
        | .error e => .error e
        | .ok (len, s2) =>
          let r2 := pEat s2 .closeSquareBrace
          if r2.1 then
            .ok (pfPush r2.2 (Opcode.pushList.toByte :: u32Be len))
          else .error (pInvalid r2.2)
    | .kwFunc =>
      let s1 := pAdvance s
      let fid := s1.finishedFuncs.length
      let s2 := pfPush s1 (Opcode.pushFunc.toByte :: u32Be fid)
      let s3 : PState :=
        { s2 with finishedFuncs := s2.finishedFuncs ++ [⟨[], 0, [], []⟩],
                  funcStack := s2.funcStack ++ [s2.func],
                  func := ⟨[], 0, [""], []⟩ }
      let r := pEat s3 .openBrace
      if !r.1 then .error (pInvalid r.2)
      else
        let r2 := pEat r.2 .closeBrace
        match (if r2.1 then Except.ok r2.2 else parseParams fuel r2.2) with
        | .error e => .error e
        | .ok s4 =>
          match (if s4.tok.ty = .openCurlyBrace then parseBlock fuel s4
                 else
                   match parseExpr fuel s4 with
                   | .error e => .error e
                   | .ok s5 =>
                     .ok (pfPush s5 [Opcode.popStore.toByte, 0])) with
          | .error e => .error e
          | .ok s6 =>
            let s7 := pfPush s6 [Opcode.ret.toByte]
            match s7.funcStack.getLast? with
            | Option.none => .error .fatal
            | some outerF =>
              .ok { s7 with
                    func := outerF,
                    funcStack := s7.funcStack.dropLast,
                    finishedFuncs := s7.finishedFuncs.set fid
                      (CompletedFunc.ofFunc s7.func) }
    | _ => .error (pInvalid s)

/-- The parameter loop of the `func` literal in `Parser::parse_value`. -/
def parseParams : Nat → PState → Except PErr PState
  | 0, _ => .error .fatal
  | fuel + 1, s =>
    let name := s.tok.src
    let r := pEat s .ident
    if !r.1 then .error (pInvalid r.2)
    else
      let s1 : PState :=
        { r.2 with func := { r.2.func with
                             scope := r.2.func.scope ++ [name],
                             param_count := r.2.func.param_count + 1 } }
      let r2 := pEat s1 .comma
      if r2.1 then parseParams fuel r2.2
      else
        let r3 := pEat r2.2 .closeBrace
        if r3.1 then .ok r3.2 else .error (pInvalid r3.2)

/-- The element loop of the list literal in `Parser::parse_value`. -/
def parseListItems : Nat → Nat → PState → Except PErr (Nat × PState)
  | 0, _, _ => .error .fatal
  | fuel + 1, len, s =>
    match parseExpr fuel s with
    | .error e => .error e
    | .ok s1 =>
      let r := pEat s1 .comma
      if r.1 then parseListItems fuel (len + 1) r.2
      else .ok (len + 1, r.2)

/-- `Parser::parse_infix`: the operator loop of precedence climbing.  Each
iteration folds the lookahead token through every operator (arithmetic ones
registered with `Assoc::Right`, comparison ones with `Assoc::Left`); on
`Complete` it consumes the operator, parses the right operand, recurses at
the operator's precedence, then emits the opcode and loops. -/
def parseOps : Nat → Precedence → PState → Except PErr PState
  | 0, _, _ => .error .fatal
  | fuel + 1, prec, s =>
    let parsed := (ParsedOp.incomplete prec s.tok.ty)
      |>.tryOp .plus .sum .add .right
      |>.tryOp .minus .sum .subtract .right
      |>.tryOp .multiply .product .multiply .right
      |>.tryOp .divide .product .divide .right
      |>.tryOp .modulus .product .modulus .right
      |>.tryOp .doubleEquals .equality .equal .left
      |>.tryOp .notEqual .equality .notEqual .left
      |>.tryOp .greater .relational .greater .left
      |>.tryOp .less .relational .less .left
      |>.tryOp .greaterOrEqual .relational .greaterOrEqual .left
      |>.tryOp .lessOrEqual .relational .lessOrEqual .left
    match parsed with
    | .complete opc oprec =>
      match parseValue fuel (pAdvance s) with
      | .error e => .error e
      | .ok s2 =>
        match parseOps fuel oprec s2 with
        | .error e => .error e
        | .ok s3 => parseOps fuel prec (pfPush s3 [opc.toByte])
    | .incomplete _ _ => .ok s

/-- `Parser::parse_expr`. -/
def parseExpr : Nat → PState → Except PErr PState
  | 0, _ => .error .fatal
  | fuel + 1, s =>
    match parseValue fuel s with
    | .error e => .error e
    | .ok s1 => parseOps fuel .top s1

/-- `Parser::parse_assign_op` (`x += e` and friends). -/
def parseAssignOp : Nat → String → Opcode → PState → Except PErr PState
  | 0, _, _, _ => .error .fatal
  | fuel + 1, name, opc, s =>
    match parseExpr fuel (pAdvance s) with
    | .error e => .error e
    | .ok s2 =>
      match pResolveVar s2 name with
      | Option.none => .error .fatal
      | some (v, s3) => .ok (pvPop (pfPush (pvPush s3 v) [opc.toByte]) v)

/-- `Parser::parse_if`. -/
def parseIf : Nat → PState → Except PErr PState
  | 0, _ => .error .fatal
  | fuel + 1, s =>
    match parseExpr fuel (pAdvance s) with
    | .error e => .error e
    | .ok s2 =>
      let rc := pJumpIfNot s2
      match parseBlock fuel rc.2 with
      | .error e => .error e
      | .ok s3 =>
        let r := pEat s3 .kwElse
        if r.1 then
          let re := pJump r.2
          let s4 := re.2
          let s5 := pConnect s4 rc.1 s4.func.bytecode.length
          match (if s5.tok.ty = .kwIf then parseIf fuel s5
                 else parseBlock fuel s5) with
          | .error e => .error e
          | .ok s6 => .ok (pConnect s6 re.1 s6.func.bytecode.length)
        else
          .ok (pConnect r.2 rc.1 r.2.func.bytecode.length)

/-- `Parser::parse_stmt`. -/
def parseStmt : Nat → PState → Except PErr PState
  | 0, _ => .error .fatal
  | fuel + 1, s =>
    match s.tok.ty with
    | .kwWhile =>
      let s1 := pAdvance s
      let start := s1.func.bytecode.length
      match parseExpr fuel s1 with
      | .error e => .error e
      | .ok s2 =>
        let rc := pJumpIfNot s2
        match parseBlock fuel rc.2 with
        | .error e => .error e
        | .ok s3 =>
          let rr := pJump s3
          let s4 := rr.2
          let exitT := s4.func.bytecode.length
          .ok (pConnect (pConnect s4 rr.1 start) rc.1 exitT)
    | .kwIf => parseIf fuel s
    | .kwVar =>
      let s1 := pAdvance s
      let name := s1.tok.src
      let r := pEat s1 .ident
      if !r.1 then .error (pInvalid r.2)
      else
        let s2 : PState :=
          { r.2 with func := { r.2.func with
                               scope := r.2.func.scope ++ [name] } }
        let r2 := pEat s2 .equals
        if !r2.1 then .error (pInvalid r2.2)
        else
          let name2 := r2.2.tok.src
          let r3 := pEat r2.2 .ident
          if r3.1 then
            if r3.2.tok.ty = .openBrace then parseCall fuel name2 r3.2
            else
              match pResolveVar r3.2 name2 with
              | Option.none => .error .fatal
              | some (v, s3) => parseOps fuel .top (pvPush s3 v)
          else parseExpr fuel r3.2
    | .kwPrint =>
      match parseExpr fuel (pAdvance s) with
      | .error e => .error e
      | .ok s1 => .ok (pfPush s1 [Opcode.popPrint.toByte])
    | .kwReturn =>
      match parseExpr fuel (pAdvance s) with
      | .error e => .error e
      | .ok s1 => .ok (pfPush s1 [Opcode.popStore.toByte, 0])
    | .ident =>
      let name := s.tok.src
      let s1 := pAdvance s
      match s1.tok.ty with
      | .openBrace =>
        match parseCall fuel name s1 with
        | .error e => .error e
        | .ok s2 => .ok (pfPush s2 [Opcode.dropN.toByte, 1])
      | .equals =>
        match parseExpr fuel (pAdvance s1) with
        | .error e => .error e
        | .ok s2 =>
          match pResolveVar s2 name with
          | Option.none => .error .fatal
          | some (v, s3) => .ok (pvPop s3 v)
      | .plusEquals => parseAssignOp fuel name .add s1
      | .minusEquals => parseAssignOp fuel name .subtract s1
      | .multiplyEquals => parseAssignOp fuel name .multiply s1
      | .divideEquals => parseAssignOp fuel name .divide s1
      | .modulusEquals => parseAssignOp fuel name .modulus s1
      | _ => .error (pInvalid s1)
    | _ => .error (pInvalid s)

/-- The statement loop of `Parser::parse_block`. -/
def parseBlockStmts : Nat → PState → Except PErr PState
  | 0, _ => .error .fatal
  | fuel + 1, s =>
    let r := pEat s .closeCurlyBrace
    if r.1 then .ok r.2
    else
      match parseStmt fuel r.2 with
      | .error e => .error e
      | .ok s1 => parseBlockStmts fuel s1

/-- `Parser::parse_block`.  The `Drop` count is computed with the `as u8`
casts of the source (`scope.len() as u8 - start_len as u8`). -/
def parseBlock : Nat → PState → Except PErr PState
  | 0, _ => .error .fatal
  | fuel + 1, s =>
    let startLen := s.func.scope.length
    let r := pEat s .openCurlyBrace
    if !r.1 then .error (pInvalid r.2)
    else
      match parseBlockStmts fuel r.2 with
      | .error e => .error e
      | .ok s1 =>
        let n := (s1.func.scope.length % 256 + 256 - startLen % 256) % 256
        let s2 := if n > 0 then pfPush s1 [Opcode.dropN.toByte, n] else s1
        .ok { s2 with func := { s2.func with
                                scope := s2.func.scope.take startLen } }

end

/-- The statement loop of `Parser::parse` (`while !parser.lexer.is_end()`).
Note the condition consults the *lexer* offset, not the lookahead token. -/
def parseTopStmts : Nat → PState → Except PErr PState
  | 0, _ => .error .fatal
  | fuel + 1, s =>
    if s.lex.isEmpty then .ok s
    else
      match parseStmt fuel s with
      | .error e => .error e
      | .ok s1 => parseTopStmts fuel s1

/-- `Parser::parse`: lex the first lookahead token, run statements until the
lexer is exhausted, emit `Finish`, and append the completed top-level
function to the table (it is the *last* entry).  The fuel argument only
bounds recursion depth; exhaustion reports a fatal error. -/
def Parser.parse (source : String) : Except PErr (List CompletedFunc) :=
  let cs := source.toList
  let r := nextToken cs
  let st : PState := ⟨r.2, r.1, ⟨[], 0, [], []⟩, [], []⟩
  match parseTopStmts (source.length + 1000) st with
  | .error e => .error e
  | .ok s =>
    .ok (s.finishedFuncs ++
         [CompletedFunc.ofFunc
           { s.func with bytecode := s.func.bytecode ++
               [Opcode.finish.toByte] }])

/-! ## Items from the newer snapshot (`src/func.rs`, `src/list.rs`) -/

/-- `func.rs` `FuncBuilder::resolve_stack_var`:
`self.scope.iter().position(|var_symbol| *var_symbol == symbol)` — a forward
scan returning the *first* matching index (contrast `parser.rs`
`Func::resolve_var`, which scans in reverse).  `Symbol` (`symbols.rs`) is a
`u32` wrapper, modelled as `Nat`. -/
def FuncBuilder.resolveStackVar (scope : List Nat) (symbol : Nat) :
    Option Nat :=
  ((scope.enum.find? (fun p => p.2 == symbol)).map (fun p => p.1 % 256))

/-- `list.rs` `List::new` (newer snapshot): allocate a slice of `length`
entries and fill it back to front with stack pops
(`slice.iter_mut().rev()`), so the last-pushed value becomes the *last*
element.  Returns the elements and the remaining stack; `none` is the
`pop().unwrap()` panic. -/
def listNew : Nat → List Value → Option (List Value × List Value)
  | 0, stack => some ([], stack)
  | n + 1, stack =>
    match popV stack with
    | Option.none => Option.none
    | some (v, st) =>
      (listNew n st).map (fun r => (r.1 ++ [v], r.2))

/-! ## Concrete states and sources used by the claim theorems -/

/-- Variant tag of a runtime value (two values are "of the same variant"
when their tags agree). -/
def vtag : Value → Nat
  | .int _ => 0
  | .float _ => 1
  | .bool _ => 2
  | .closure _ => 3
  | .heapValue _ => 4
  | .none => 5

/-- A one-function VM about to execute `NotEqual` on `Int 0` (below)
and `Bool true` (top). -/
def c9S : VMState :=
  ⟨[⟨[6], 0, [], []⟩], ⟨0, 0, 0⟩, [.int 0, .bool true], [], [⟨0, []⟩],
   [], [], [], [], [], false⟩

def c9S' : VMState :=
  ⟨[⟨[6], 0, [], []⟩], ⟨1, 0, 0⟩, [.bool true], [], [⟨0, []⟩],
   [], [], [], [], [], false⟩

/-- Same stack, but executing `Equal`. -/
def c9E : VMState :=
  ⟨[⟨[5], 0, [], []⟩], ⟨0, 0, 0⟩, [.int 0, .bool true], [], [⟨0, []⟩],
   [], [], [], [], [], false⟩

def c9E' : VMState :=
  ⟨[⟨[5], 0, [], []⟩], ⟨1, 0, 0⟩, [.bool false], [], [⟨0, []⟩],
   [], [], [], [], [], false⟩

/-- About to execute `PushList 2` with `Int 1` then `Int 2` pushed. -/
def c8S : VMState :=
  ⟨[⟨[18, 0, 0, 0, 2], 0, [], []⟩], ⟨0, 0, 0⟩, [.int 1, .int 2], [],
   [⟨0, []⟩], [], [], [], [], [], false⟩

def c8S' : VMState :=
  ⟨[⟨[18, 0, 0, 0, 2], 0, [], []⟩], ⟨5, 0, 0⟩, [.heapValue 0], [],
   [⟨0, []⟩], [], [], [[.int 2, .int 1]], [], [], false⟩

/-- About to execute `Less` on `Float NaN` (below) and `Int 3` (top). -/
def c10S : VMState :=
  ⟨[⟨[7], 0, [], []⟩], ⟨0, 0, 0⟩, [.float .nan, .int 3], [], [⟨0, []⟩],
   [], [], [], [], [], false⟩

/-- The state `VirtualMachine::run` builds for a capture-free entry
function whose bytecode is just `Finish`. -/
def c10W : VMState :=
  ⟨[⟨[27], 0, [], []⟩], ⟨0, 0, 0⟩, [], [], [⟨0, []⟩],
   [], [], [], [], [], false⟩

/-- Three functions (distinguished by `param_count`); the executing closure
belongs to `funcs[0]`, whose bytecode is `PushFunc 1`. -/
def c1S : VMState :=
  ⟨[⟨[15, 0, 0, 0, 1], 0, [], []⟩, ⟨[26], 1, [], []⟩, ⟨[26], 2, [], []⟩],
   ⟨0, 0, 0⟩, [], [], [⟨0, []⟩], [], [], [], [], [], false⟩

def c1S' : VMState :=
  ⟨[⟨[15, 0, 0, 0, 1], 0, [], []⟩, ⟨[26], 1, [], []⟩, ⟨[26], 2, [], []⟩],
   ⟨5, 0, 0⟩, [.closure 1], [], [⟨0, []⟩, ⟨2, []⟩], [], [], [], [], [],
   false⟩

/-- `funcs[0]` captures the enclosing local 0 (`ClosureValue::Stack(0)`);
the entry (`funcs[1]`) executes the same `PushFunc 2` site twice over the
live local `Int 7`, then `Drop 1`. -/
def c3F : Func := ⟨[26], 0, [.stack 0], []⟩

def c3Entry : Func :=
  ⟨[15, 0, 0, 0, 2, 15, 0, 0, 0, 2, 24, 1], 0, [], []⟩

def c3S0 : VMState :=
  ⟨[c3F, c3Entry], ⟨0, 0, 0⟩, [.int 7], [], [⟨1, []⟩], [], [], [], [], [],
   false⟩

def c3S1 : VMState :=
  ⟨[c3F, c3Entry], ⟨5, 0, 0⟩, [.int 7, .closure 1], [],
   [⟨1, []⟩, ⟨0, [0]⟩], [.stack 0], [], [], [(0, [0])], [], false⟩

def c3S2 : VMState :=
  ⟨[c3F, c3Entry], ⟨10, 0, 0⟩, [.int 7, .closure 1, .closure 2], [],
   [⟨1, []⟩, ⟨0, [0]⟩, ⟨0, [1]⟩], [.stack 0, .stack 0], [], [],
   [(0, [0, 1])], [], false⟩

/-- A closure whose single upvalue cell is closed onto `boxes[0] = Int 42`,
about to execute `PushClosureLoad 0`. -/
def c2Load : VMState :=
  ⟨[⟨[17, 0], 0, [], []⟩], ⟨0, 0, 0⟩, [], [], [⟨0, [0]⟩], [.heap 0],
   [.int 42], [], [], [], false⟩

def c2Load' : VMState :=
  ⟨[⟨[17, 0], 0, [], []⟩], ⟨2, 0, 0⟩, [.int 42], [], [⟨0, [0]⟩], [.heap 0],
   [.int 42], [], [], [], false⟩

/-- The same closed cell, about to execute `PopClosureStore 0` with `Int 9`
on top of the stack. -/
def c2Store : VMState :=
  ⟨[⟨[21, 0], 0, [], []⟩], ⟨0, 0, 0⟩, [.int 9], [], [⟨0, [0]⟩], [.heap 0],
   [.int 42], [], [], [], false⟩

def c2Store' : VMState :=
  ⟨[⟨[21, 0], 0, [], []⟩], ⟨2, 0, 0⟩, [], [], [⟨0, [0]⟩], [.heap 0],
   [.int 9], [], [], [], false⟩

/-- `funcs[0]` takes one parameter; the entry (`funcs[1]`) executes
`Call 1` with the return slot, one argument and the callee pushed. -/
def c4S : VMState :=
  ⟨[⟨[26], 1, [], []⟩, ⟨[25, 1], 0, [], []⟩], ⟨0, 0, 0⟩,
   [.none, .int 7, .closure 1], [], [⟨1, []⟩, ⟨0, []⟩], [], [], [], [], [],
   false⟩

def c4S' : VMState :=
  ⟨[⟨[26], 1, [], []⟩, ⟨[25, 1], 0, [], []⟩], ⟨0, 0, 1⟩,
   [.none, .int 7], [⟨2, 0, 0⟩], [⟨1, []⟩, ⟨0, []⟩], [], [], [], [], [],
   false⟩

/-- The same call site with `Call 2` (wrong arity for the 1-parameter
callee). -/
def c4Sbad : VMState :=
  ⟨[⟨[26], 1, [], []⟩, ⟨[25, 2], 0, [], []⟩], ⟨0, 0, 0⟩,
   [.none, .int 7, .closure 1], [], [⟨1, []⟩, ⟨0, []⟩], [], [], [], [], [],
   false⟩

/-- Operator tables for the associativity check: source text with the emitted
opcode byte, grouped by the `Precedence` the compiler assigns. -/
def sumOps : List (String × Nat) := [("+", 0), ("-", 1)]

def prodOps : List (String × Nat) := [("*", 2), ("/", 3), ("%", 4)]

def eqOps : List (String × Nat) := [("==", 5), ("!=", 6)]

def relOps : List (String × Nat) := [("<", 7), (">", 8), ("<=", 9), (">=", 10)]

def pushIntBc (k : Int) : List Nat := Opcode.pushInt.toByte :: i64Be k

/-- Expected bytecode of `print 1 OP1 2 OP2 3` when `(1 OP1 2) OP2 3` is
compiled (OP1's opcode emitted first). -/
def leftAssocBc (o1 o2 : Nat) : List Nat :=
  pushIntBc 1 ++ pushIntBc 2 ++ [o1] ++ pushIntBc 3 ++
    [o2, Opcode.popPrint.toByte, Opcode.finish.toByte]

/-- Expected bytecode when `1 OP1 (2 OP2 3)` is compiled (OP2's opcode
emitted first). -/
def rightAssocBc (o1 o2 : Nat) : List Nat :=
  pushIntBc 1 ++ pushIntBc 2 ++ pushIntBc 3 ++
    [o2, o1, Opcode.popPrint.toByte, Opcode.finish.toByte]

def exprSource (o1 o2 : String) : String :=
  "print 1 " ++ o1 ++ " 2 " ++ o2 ++ " 3"

/-- Does `print 1 OP1 2 OP2 3` compile to exactly the given bytecode (as the
single completed function, with empty scope)? -/
def compilesTo (o1 o2 : String) (bc : List Nat) : Bool :=
  match Parser.parse (exprSource o1 o2) with
  | .ok [f] =>
    f.bytecode == bc && f.param_count == 0 && f.scope.isEmpty &&
      f.closure_scope.isEmpty
  | _ => false

def allPairs (l : List (String × Nat)) :
    List ((String × Nat) × (String × Nat)) :=
  l.flatMap (fun a => l.map (fun b => (a, b)))

/-- Is a runtime value a `Float`? -/
def isFloat : Value → Bool
  | .float _ => true
  | _ => false

/-- No `Float` value stored anywhere a value can live: the data stack, the
closed-upvalue boxes, and the list payloads. -/
def FloatFree (s : VMState) : Prop :=
  (∀ v ∈ s.stack, isFloat v = false) ∧
  (∀ v ∈ s.boxes, isFloat v = false) ∧
  (∀ l ∈ s.lists, ∀ v ∈ l, isFloat v = false)

/-! ## Helper lemmas -/

theorem get?_some_lt {α : Type} {l : List α} {n : Nat} {a : α}
    (h : l.get? n = some a) : n < l.length := by
  by_contra hn
  rw [List.get?_eq_none.mpr (Nat.le_of_not_lt hn)] at h
  exact Option.noConfusion h

theorem usizeSub_eq {a b : Nat} (hba : b ≤ a) (ha : a < usizeMod) :
    usizeSub a b = a - b := by
  unfold usizeSub
  have h1 : a + usizeMod - b = usizeMod + (a - b) := by omega
  rw [h1, Nat.add_mod_left]
  exact Nat.mod_eq_of_lt (by omega)

theorem arithmeticOp_cells {s : VMState} {pc' : Nat}
    {io : Int → Int → Option Int} {fo : F64 → F64 → F64} {t : VMState}
    (h : arithmeticOp s pc' io fo = some t) : t.cells = s.cells := by
  unfold arithmeticOp at h
  split at h
  · exact Option.noConfusion h
  · split at h
    · exact Option.noConfusion h
    · split at h
      · obtain ⟨r, _, rfl⟩ := Option.map_eq_some'.mp h
        rfl
      · obtain rfl := Option.some.inj h
        rfl
      · obtain rfl := Option.some.inj h
        rfl
      · obtain rfl := Option.some.inj h
        rfl
      · exact Option.noConfusion h

theorem comparisonOp_cells {s : VMState} {pc' : Nat} {f : Ordering → Bool}
    {t : VMState} (h : comparisonOp s pc' f = some t) : t.cells = s.cells := by
  unfold comparisonOp at h
  repeat' split at h
  all_goals try exact Option.noConfusion h
  all_goals (obtain rfl := Option.some.inj h; rfl)

theorem foldl_set_heap_closed {c p b : Nat} (ixs : List Nat)
    (cs : List ClosureValueRef) (hc : cs.get? c = some (.heap p)) :
    ∃ q, (ixs.foldl (fun l i => l.set i (.heap b)) cs).get? c =
      some (.heap q) := by
  induction ixs generalizing cs p with
  | nil => exact ⟨p, hc⟩
  | cons i ixs ih =>
    simp only [List.foldl_cons]
    by_cases hic : i = c
    · subst hic
      exact ih (cs.set i (.heap b)) (by
        rw [List.get?_set_eq_of_lt _ (get?_some_lt hc)])
    · exact ih (cs.set i (.heap b)) (by rw [List.get?_set_ne _ _ hic, hc])

theorem dropOne_cells_closed {s t : VMState} {c p : Nat}
    (h : dropOne s = some t) (hc : s.cells.get? c = some (.heap p)) :
    ∃ q, t.cells.get? c = some (.heap q) := by
  unfold dropOne at h
  dsimp only at h
  split at h
  · exact Option.noConfusion h
  · split at h
    · obtain rfl := Option.some.inj h
      exact ⟨p, hc⟩
    · split at h
      · obtain rfl := Option.some.inj h
        exact ⟨p, hc⟩
      · obtain rfl := Option.some.inj h
        exact foldl_set_heap_closed _ _ hc

theorem iterDrop_cells_closed {n : Nat} {s t : VMState} {c p : Nat}
    (h : iterDrop n s = some t) (hc : s.cells.get? c = some (.heap p)) :
    ∃ q, t.cells.get? c = some (.heap q) := by
  induction n generalizing s p with
  | zero =>
    simp only [iterDrop] at h
    obtain rfl := Option.some.inj h
    exact ⟨p, hc⟩
  | succ n ih =>
    simp only [iterDrop] at h
    split at h
    · exact Option.noConfusion h
    · rename_i s1 h1
      obtain ⟨q, hq⟩ := dropOne_cells_closed h1 hc
      exact ih h hq

theorem buildCvs_cells {fr : Nat} {cur : Closure} {ds : List ClosureValue}
    {cells : List ClosureValueRef} {m : RefMap}
    {r : List Nat × List ClosureValueRef × RefMap} {c : Nat}
    {x : ClosureValueRef}
    (h : buildCvs fr cur ds cells m = some r)
    (hc : cells.get? c = some x) : r.2.1.get? c = some x := by
  induction ds generalizing cells m r with
  | nil =>
    simp only [buildCvs] at h
    obtain rfl := Option.some.inj h
    exact hc
  | cons d ds ih =>
    cases d with
    | outer i =>
      simp only [buildCvs] at h
      split at h
      · exact Option.noConfusion h
      · obtain ⟨r1, h1, rfl⟩ := Option.map_eq_some'.mp h
        show r1.2.1.get? c = some x
        exact ih h1 hc
    | stack rel =>
      simp only [buildCvs] at h
      obtain ⟨r1, h1, rfl⟩ := Option.map_eq_some'.mp h
      show r1.2.1.get? c = some x
      exact ih h1 (by
        rw [List.get?_append (get?_some_lt hc)]
        exact hc)

theorem execOp_cells_closed {s : VMState} {cl : Closure} {f : Func}
    {op : Opcode} {t : VMState} {c p : Nat}
    (h : execOp s cl f op = some t)
    (hc : s.cells.get? c = some (.heap p)) :
    ∃ q, t.cells.get? c = some (.heap q) := by
  cases op <;> simp only [execOp] at h
  case add => exact ⟨p, by rw [arithmeticOp_cells h]; exact hc⟩
  case subtract => exact ⟨p, by rw [arithmeticOp_cells h]; exact hc⟩
  case multiply => exact ⟨p, by rw [arithmeticOp_cells h]; exact hc⟩
  case divide => exact ⟨p, by rw [arithmeticOp_cells h]; exact hc⟩
  case modulus => exact ⟨p, by rw [arithmeticOp_cells h]; exact hc⟩
  case less => exact ⟨p, by rw [comparisonOp_cells h]; exact hc⟩
  case greater => exact ⟨p, by rw [comparisonOp_cells h]; exact hc⟩
  case lessOrEqual => exact ⟨p, by rw [comparisonOp_cells h]; exact hc⟩
  case greaterOrEqual => exact ⟨p, by rw [comparisonOp_cells h]; exact hc⟩
  case pushFunc =>
    repeat' split at h
    all_goals try exact Option.noConfusion h
    obtain rfl := Option.some.inj h
    rename_i ids cells' m' heq
    exact ⟨p, buildCvs_cells heq hc⟩
  case dropN =>
    repeat' split at h
    all_goals try exact Option.noConfusion h
    obtain rfl := Option.some.inj h
    rename_i heq
    exact iterDrop_cells_closed heq hc
  case ret =>
    split at h
    · exact Option.noConfusion h
    · rename_i s' heq
      split at h
      · exact Option.noConfusion h
      · obtain rfl := Option.some.inj h
        show ∃ q, s'.cells.get? c = some (.heap q)
        exact iterDrop_cells_closed heq hc
  all_goals repeat' split at h
  all_goals try exact Option.noConfusion h
  all_goals (obtain rfl := Option.some.inj h; exact ⟨p, hc⟩)

theorem step_cells_closed {s t : VMState} {c p : Nat}
    (h : step s = some t) (hc : s.cells.get? c = some (.heap p)) :
    ∃ q, t.cells.get? c = some (.heap q) := by
  unfold step at h
  repeat' split at h
  all_goals try exact Option.noConfusion h
  exact execOp_cells_closed h hc

theorem stepsTo_cells_closed {s t : VMState} {c p : Nat}
    (h : StepsTo s t) (hc : s.cells.get? c = some (.heap p)) :
    ∃ q, t.cells.get? c = some (.heap q) := by
  induction h with
  | refl => exact ⟨p, hc⟩
  | tail _ hstep ih =>
    obtain ⟨q, hq⟩ := ih
    exact step_cells_closed hstep hq

/-- C2: an upvalue cell transitions `Open → Closed` at most once and never
back — a closed cell stays closed across any single `step` and along any
execution (so a cell can leave the open state at most once) — and once
closed, `PushClosureLoad` reads the heap box and `PopClosureStore` writes
the heap box, leaving the data stack untouched apart from the push/pop
itself. -/
theorem upvalue_close_once :
    (∀ s t c p, step s = some t → s.cells.get? c = some (.heap p) →
      ∃ q, t.cells.get? c = some (.heap q)) ∧
    (∀ s t c p, StepsTo s t → s.cells.get? c = some (.heap p) →
      ∃ q, t.cells.get? c = some (.heap q)) ∧
    (∀ (s : VMState) (curCl : Closure) (curF : Func) (idx cid p : Nat)
       (v : Value),
      s.closures.get? s.call.closure = some curCl →
      s.funcs.get? curCl.funcIdx = some curF →
      curF.bytecode.get? s.call.pc = some 17 →
      curF.bytecode.get? (s.call.pc + 1) = some idx →
      curCl.closureValues.get? idx = some cid →
      s.cells.get? cid = some (.heap p) →
      s.boxes.get? p = some v →
      step s = some { s with stack := s.stack ++ [v],
                             call := { s.call with pc := s.call.pc + 2 } }) ∧
    (∀ (s : VMState) (curCl : Closure) (curF : Func) (idx cid p : Nat)
       (v : Value) (st : List Value),
      s.closures.get? s.call.closure = some curCl →
      s.funcs.get? curCl.funcIdx = some curF →
      curF.bytecode.get? s.call.pc = some 21 →
      curF.bytecode.get? (s.call.pc + 1) = some idx →
      popV s.stack = some (v, st) →
      curCl.closureValues.get? idx = some cid →
      s.cells.get? cid = some (.heap p) →
      step s = some { s with stack := st, boxes := s.boxes.set p v,
                             call := { s.call with pc := s.call.pc + 2 } }) := by
  refine ⟨fun s t c p h hc => step_cells_closed h hc,
          fun s t c p h hc => stepsTo_cells_closed h hc, ?_, ?_⟩
  · intro s curCl curF idx cid p v hcl hf hop hidx hcid hcell hbox
    simp only [step, hcl, hf, hop, Opcode.ofByte, execOp, hidx, hcid, hcell,
      hbox]
  · intro s curCl curF idx cid p v st hcl hf hop hidx hpop hcid hcell
    simp only [step, hcl, hf, hop, Opcode.ofByte, execOp, hidx, hpop, hcid,
      hcell]

/-- Witness for `upvalue_close_once` at the concrete closed-cell states
`c2Load`/`c2Store`: the closed cell stays closed along an execution,
`PushClosureLoad 0` pushes the box value `Int 42`, and `PopClosureStore 0`
stores `Int 9` into the box. -/
theorem upvalue_close_once_witness :
    (∃ q, c2Load.cells.get? 0 = some (.heap q)) ∧
    step c2Load = some c2Load' ∧
    step c2Store = some c2Store' := by
  obtain ⟨_, h2, h3, h4⟩ := upvalue_close_once
  refine ⟨?_, ?_, ?_⟩
  · exact h2 c2Load c2Load 0 0 Relation.ReflTransGen.refl (by decide)
  · have h := h3 c2Load ⟨0, [0]⟩ ⟨[17, 0], 0, [], []⟩ 0 0 0 (.int 42)
      rfl rfl rfl rfl rfl rfl rfl
    exact h.trans (by decide)
  · have h := h4 c2Store ⟨0, [0]⟩ ⟨[21, 0], 0, [], []⟩ 0 0 0 (.int 9) []
      rfl rfl rfl rfl rfl rfl rfl
    exact h.trans (by decide)

/-- C4: `Call` with a closure on top checks the operand argument count
against the callee's `param_count`, aborting on mismatch; on agreement it
saves the caller frame and starts the callee with
`frame = stack.len() - argc - 1` (the stack length after popping the
callee). -/
theorem call_arity_check (s : VMState) (curCl cl2 : Closure)
    (curF f2 : Func) (argc p : Nat)
    (hcl : s.closures.get? s.call.closure = some curCl)
    (hf : s.funcs.get? curCl.funcIdx = some curF)
    (hop : curF.bytecode.get? s.call.pc = some 25)
    (hargc : curF.bytecode.get? (s.call.pc + 1) = some argc)
    (htop : s.stack.getLast? = some (.closure p))
    (hp : s.closures.get? p = some cl2)
    (hf2 : s.funcs.get? cl2.funcIdx = some f2) :
    (argc ≠ f2.param_count → step s = Option.none) ∧
    (argc = f2.param_count → argc + 2 ≤ s.stack.length →
      s.stack.length < usizeMod →
      step s = some { s with
        stack := s.stack.dropLast,
        callStack := s.callStack ++
          [⟨s.call.pc + 2, s.call.frame, s.call.closure⟩],
        call := ⟨0, s.stack.length - 1 - argc - 1, p⟩ }) := by
  constructor
  · intro hne
    simp only [step, hcl, hf, hop, execOp, Opcode.ofByte, popV, htop, hargc,
      hp, hf2]
    rw [if_pos hne]
  · intro heq hle hM
    subst heq
    have hM' : s.stack.length < 18446744073709551616 := hM
    simp only [step, hcl, hf, hop, execOp, Opcode.ofByte, popV, htop, hargc,
      hp, hf2]
    rw [if_neg (by simp)]
    have e1 : usizeSub (s.stack.length - 1) f2.param_count =
        s.stack.length - 1 - f2.param_count :=
      usizeSub_eq (by omega) (by unfold usizeMod; omega)
    have e2 : usizeSub (s.stack.length - 1 - f2.param_count) 1 =
        s.stack.length - 1 - f2.param_count - 1 :=
      usizeSub_eq (by omega) (by unfold usizeMod; omega)
    have h1 : usizeSub (usizeSub s.stack.dropLast.length f2.param_count) 1 =
        s.stack.length - 1 - f2.param_count - 1 := by
      rw [List.length_dropLast, e1, e2]
    rw [h1]

/-- Witness for `call_arity_check`: the concrete `Call 1` of a 1-parameter
callee succeeds with frame base 0, and the same call with operand 2
aborts. -/
theorem call_arity_check_witness :
    step c4S = some c4S' ∧ step c4Sbad = Option.none := by
  constructor
  · have h := (call_arity_check c4S ⟨1, []⟩ ⟨0, []⟩ ⟨[25, 1], 0, [], []⟩
      ⟨[26], 1, [], []⟩ 1 1 rfl rfl rfl rfl rfl rfl rfl).2 rfl (by decide)
      (by decide)
    exact h.trans (by decide)
  · exact (call_arity_check c4Sbad ⟨1, []⟩ ⟨0, []⟩ ⟨[25, 2], 0, [], []⟩
      ⟨[26], 1, [], []⟩ 2 1 rfl rfl rfl rfl rfl rfl rfl).1 (by decide)

theorem valueEq_false_of_vtag_ne {a b : Value} (h : vtag a ≠ vtag b) :
    valueEq a b = false := by
  cases a <;> cases b <;> simp_all [vtag, valueEq]

theorem cmpOrd_none_of_not_numeric {a b : Value}
    (h : ¬(vtag a ≤ 1 ∧ vtag b ≤ 1)) : cmpOrd a b = Option.none := by
  cases a <;> cases b <;> simp_all [vtag, cmpOrd]

/-- C9 (amended): with operands of different variants on top of the stack,
`Equal` pushes `false` but `NotEqual` pushes `true` (the code computes
`pop() != pop()`, the negation of `PartialEq`); ordered comparisons on any
pairing outside the Int/Float combinations are a fatal runtime error. -/
theorem cross_type_compare (s : VMState) (curCl : Closure) (curF : Func)
    (a b : Value)
    (hcl : s.closures.get? s.call.closure = some curCl)
    (hf : s.funcs.get? curCl.funcIdx = some curF)
    (ha : s.stack.getLast? = some a)
    (hb : s.stack.dropLast.getLast? = some b)
    (hdiff : vtag a ≠ vtag b) :
    (curF.bytecode.get? s.call.pc = some 5 →
      step s = some { s with
        stack := s.stack.dropLast.dropLast ++ [.bool false],
        call := { s.call with pc := s.call.pc + 1 } }) ∧
    (curF.bytecode.get? s.call.pc = some 6 →
      step s = some { s with
        stack := s.stack.dropLast.dropLast ++ [.bool true],
        call := { s.call with pc := s.call.pc + 1 } }) ∧
    (¬(vtag a ≤ 1 ∧ vtag b ≤ 1) →
      ∀ opb, opb = 7 ∨ opb = 8 ∨ opb = 9 ∨ opb = 10 →
        curF.bytecode.get? s.call.pc = some opb →
        step s = Option.none) := by
  refine ⟨?_, ?_, ?_⟩
  · intro hop
    simp only [step, hcl, hf, hop, Opcode.ofByte, execOp, popV, ha, hb,
      valueEq_false_of_vtag_ne hdiff]
  · intro hop
    simp only [step, hcl, hf, hop, Opcode.ofByte, execOp, popV, ha, hb,
      valueEq_false_of_vtag_ne hdiff, Bool.not_false]
  · intro hnn opb hopb hop
    obtain rfl | rfl | rfl | rfl := hopb <;>
      simp only [step, hcl, hf, hop, Opcode.ofByte, execOp, comparisonOp,
        popV, ha, hb, cmpOrd_none_of_not_numeric hnn]

/-- Witness for `cross_type_compare`: `Equal` on `Int 0` / `Bool true`
pushes `false`. -/
theorem cross_type_compare_witness : step c9E = some c9E' := by
  have h := (cross_type_compare c9E ⟨0, []⟩ ⟨[5], 0, [], []⟩ (.bool true)
    (.int 0) rfl rfl rfl rfl (by decide)).1 rfl
  exact h.trans (by decide)

/-- C9 counterexample: on operands of different variants (`Int 0` below,
`Bool true` on top) the `NotEqual` instruction pushes `true`, not `false`
as the claim states. -/
theorem cross_type_notequal_counterexample :
    step c9S = some c9S' ∧ c9S'.stack = [.bool true] ∧
    Value.bool true ≠ Value.bool false := by
  refine ⟨by decide, by decide, by decide⟩

set_option maxRecDepth 100000 in
/-- C5 counterexample: in `print 1 == 2 != 3` the two operators have equal
precedence, yet the compiler emits the `NotEqual` opcode (byte 6, OP2)
*before* the `Equal` opcode (byte 5, OP1): the program compiles as
`1 == (2 != 3)`, not left-associatively. -/
theorem equal_prec_right_assoc_counterexample :
    Parser.parse "print 1 == 2 != 3" =
      .ok [⟨pushIntBc 1 ++ pushIntBc 2 ++ pushIntBc 3 ++ [6, 5, 20, 27],
            0, [], []⟩] ∧
    rightAssocBc 5 6 ≠ leftAssocBc 5 6 := by
  constructor
  · rfl
  · decide

/-- C5 (amended): the arithmetic operators `+ - * / %` are left-associative
(registered with the strict `<` test, so an equal-precedence operator does
not re-enter: OP1's opcode is emitted first), while the equality and
relational operators `== != < <= > >=` are *right*-associative (registered
with the `<=` test, so an equal-precedence operator re-enters and OP2's
opcode is emitted first).  Verified for every equal-precedence operator
pair on the expression statement `print 1 OP1 2 OP2 3`. -/
theorem binop_assoc_emission :
    ((allPairs sumOps ++ allPairs prodOps).all
      (fun pr => compilesTo pr.1.1 pr.2.1 (leftAssocBc pr.1.2 pr.2.2)))
      = true ∧
    ((allPairs eqOps ++ allPairs relOps).all
      (fun pr => compilesTo pr.1.1 pr.2.1 (rightAssocBc pr.1.2 pr.2.2)))
      = true := by
  constructor
  · rfl
  · rfl

/-- C6 (code bug): `FuncBuilder::resolve_stack_var` in `func.rs` scans the
scope vector *forward* (`iter().position`), so with a shadowed name
(symbol 7 defined at slots 1 and 2) it returns the first slot 1, not the
most recent slot 2 that the claim (and the spec's shadowing rule) require;
`parser.rs`'s `Func::resolve_var` on the analogous scope returns the last
match 2. -/
theorem resolve_first_match_bug :
    FuncBuilder.resolveStackVar [0, 7, 7] 7 = some 1 ∧
    some 1 ≠ some 2 ∧
    PFunc.resolveVar ⟨[], 0, ["", "x", "x"], []⟩ "x" = some 2 := by
  refine ⟨by decide, by decide, by rfl⟩

set_option maxRecDepth 100000 in
/-- C7 counterexample: in `var x = 1 var x = x`, the initializer of the
second `var x` is compiled *after* the name is pushed into scope, so the
identifier `x` resolves to slot 1 — the very `x` being defined — and not to
the enclosing binding at slot 0 as the claim requires (the emitted load is
`PushLoad 1`, not `PushLoad 0`). -/
theorem var_self_resolve_counterexample :
    Parser.parse "var x = 1 var x = x" =
      .ok [⟨pushIntBc 1 ++ [16, 1, 27], 0, ["x", "x"], []⟩] ∧
    (pushIntBc 1 ++ [16, 1, 27]) ≠ (pushIntBc 1 ++ [16, 0, 27]) := by
  constructor
  · rfl
  · decide

set_option maxRecDepth 100000 in
/-- C7 (amended): `var x = e` pushes `x` into the scope vector *before*
compiling `e`, so an identifier `x` inside the initializer resolves to the
x being defined: `var x = x` (with no enclosing `x` at all) compiles
successfully to a load of the new slot 0 instead of failing resolution,
and resolving `x` in the scope as it stands while the initializer is
compiled returns the new slot. -/
theorem var_define_before_init :
    Parser.parse "var x = x" = .ok [⟨[16, 0, 27], 0, ["x"], []⟩] ∧
    PFunc.resolveVar ⟨[], 0, ["x"], []⟩ "x" = some 0 := by
  constructor
  · rfl
  · decide

/-- C8 (code bug): executing `PushList 2` over the stack `[Int 1, Int 2]`
(2 pushed last) pops exactly the two values but stores the *last-pushed*
value first: the built list is `[2, 1]`, reversing push order, while
`list.rs`'s `List::new` (which fills the slice back to front) produces
`[1, 2]` as the claim and the spec state. -/
theorem pushlist_reverses :
    step c8S = some c8S' ∧
    c8S'.lists = [[.int 2, .int 1]] ∧
    c8S'.stack = [.heapValue 0] ∧
    listNew 2 [.int 1, .int 2] = some ([.int 1, .int 2], []) ∧
    ([Value.int 2, Value.int 1] : List Value) ≠ [.int 1, .int 2] := by
  refine ⟨by decide, by decide, by decide, by decide, by decide⟩

theorem refGet_refPush_self (m : RefMap) (k c : Nat) :
    refGet (refPush m k c) k = some ((refGet m k).getD [] ++ [c]) := by
  induction m with
  | nil => simp [refPush, refGet, List.find?]
  | cons e m ih =>
    obtain ⟨k', l'⟩ := e
    by_cases hk : k' = k
    · subst hk
      simp [refPush, refGet, List.find?]
    · have hb : (k' == k) = false := beq_eq_false_iff_ne.mpr hk
      by_cases ha : List.any m (fun e => e.1 == k) = true
      · have h1 : refPush ((k', l') :: m) k c =
            (k', l') :: List.map
              (fun e => if e.1 == k then (e.1, e.2 ++ [c]) else e) m := by
          simp [refPush, List.any_cons, hb, ha, hk]
        have h2 : refPush m k c =
            List.map (fun e => if e.1 == k then (e.1, e.2 ++ [c]) else e)
              m := by
          simp [refPush, ha]
        rw [h1]
        simp only [refGet, List.find?, hb] at ih ⊢
        rw [← h2] at *
        exact ih
      · have h1 : refPush ((k', l') :: m) k c =
            (k', l') :: (m ++ [(k, [c])]) := by
          simp [refPush, List.any_cons, hb, ha]
        have h2 : refPush m k c = m ++ [(k, [c])] := by
          simp [refPush, ha]
        rw [h1]
        simp only [refGet, List.find?, hb] at ih ⊢
        rw [← h2] at *
        exact ih

theorem step_pushFunc_single (s : VMState) (curCl : Closure)
    (curF tf : Func) (bs : List Nat) (r : Nat)
    (hcl : s.closures.get? s.call.closure = some curCl)
    (hf : s.funcs.get? curCl.funcIdx = some curF)
    (hop : curF.bytecode.get? s.call.pc = some 15)
    (hbs : readBytes curF.bytecode (s.call.pc + 1) 4 = some bs)
    (htf : s.funcs.get? (usizeSub s.funcs.length (beU32 bs)) = some tf)
    (hsc : tf.closure_scope = [.stack r]) :
    step s = some { s with
      stack := s.stack ++ [.closure s.closures.length],
      closures := s.closures ++
        [⟨usizeSub s.funcs.length (beU32 bs), [s.cells.length]⟩],
      cells := s.cells ++ [.stack (s.call.frame + r)],
      refMap := refPush s.refMap (s.call.frame + r) s.cells.length,
      call := { s.call with pc := s.call.pc + 5 } } := by
  simp only [step, hcl, hf, hop, Opcode.ofByte, execOp, hbs, htf, hsc,
    buildCvs, Option.map_some']

/-- C3 (amended): two closures created by the same `PushFunc` site (same
operand, same target function with one `FromOuterLocal`/`Stack(r)` capture
descriptor), executed twice in the same frame, receive *distinct* upvalue
cells — each execution allocates a fresh cell — but both cells are open on
the same absolute stack slot `frame + r` and both are registered in the
upvalue registry under that slot (so closing the slot rewrites both to one
shared heap box; sharing is by registry, not by pointer equality of the
cells). -/
theorem sibling_closures_same_slot (s t u : VMState) (curCl : Closure)
    (curF tf : Func) (bs : List Nat) (r : Nat)
    (hcl : s.closures.get? s.call.closure = some curCl)
    (hf : s.funcs.get? curCl.funcIdx = some curF)
    (hop1 : curF.bytecode.get? s.call.pc = some 15)
    (hbs1 : readBytes curF.bytecode (s.call.pc + 1) 4 = some bs)
    (htf : s.funcs.get? (usizeSub s.funcs.length (beU32 bs)) = some tf)
    (hsc : tf.closure_scope = [.stack r])
    (hop2 : curF.bytecode.get? (s.call.pc + 5) = some 15)
    (hbs2 : readBytes curF.bytecode (s.call.pc + 6) 4 = some bs)
    (hs : step s = some t) (ht : step t = some u) :
    u.closures.get? s.closures.length =
      some ⟨usizeSub s.funcs.length (beU32 bs), [s.cells.length]⟩ ∧
    u.closures.get? (s.closures.length + 1) =
      some ⟨usizeSub s.funcs.length (beU32 bs), [s.cells.length + 1]⟩ ∧
    s.cells.length ≠ s.cells.length + 1 ∧
    u.cells.get? s.cells.length = some (.stack (s.call.frame + r)) ∧
    u.cells.get? (s.cells.length + 1) =
      some (.stack (s.call.frame + r)) ∧
    ∃ l, refGet u.refMap (s.call.frame + r) = some l ∧
      s.cells.length ∈ l ∧ (s.cells.length + 1) ∈ l := by
  have h1 := step_pushFunc_single s curCl curF tf bs r hcl hf hop1 hbs1
    htf hsc
  obtain rfl := Option.some.inj (hs.symm.trans h1)
  have hcl2 : (s.closures ++
      [(⟨usizeSub s.funcs.length (beU32 bs), [s.cells.length]⟩ :
        Closure)]).get? s.call.closure = some curCl := by
    rw [List.get?_append (get?_some_lt hcl)]
    exact hcl
  have h2 := step_pushFunc_single
    { s with
      stack := s.stack ++ [.closure s.closures.length],
      closures := s.closures ++
        [⟨usizeSub s.funcs.length (beU32 bs), [s.cells.length]⟩],
      cells := s.cells ++ [.stack (s.call.frame + r)],
      refMap := refPush s.refMap (s.call.frame + r) s.cells.length,
      call := { s.call with pc := s.call.pc + 5 } }
    curCl curF tf bs r hcl2 hf hop2 hbs2 htf hsc
  obtain rfl := Option.some.inj (ht.symm.trans h2)
  have hlen1 : (s.closures ++
      [(⟨usizeSub s.funcs.length (beU32 bs), [s.cells.length]⟩ :
        Closure)]).length = s.closures.length + 1 := by
    simp
  have hclen1 : (s.cells ++
      [ClosureValueRef.stack (s.call.frame + r)]).length =
        s.cells.length + 1 := by
    simp
  refine ⟨?_, ?_, by omega, ?_, ?_, ?_⟩
  · rw [List.get?_append (by simp)]
    exact List.get?_concat_length _ _
  · rw [hclen1, ← hlen1]
    exact List.get?_concat_length _ _
  · rw [List.get?_append (by simp)]
    exact List.get?_concat_length _ _
  · rw [← hclen1]
    exact List.get?_concat_length _ _
  · rw [hclen1, refGet_refPush_self, refGet_refPush_self]
    refine ⟨_, rfl, ?_, ?_⟩ <;> simp

/-- C3 counterexample: executing the same `PushFunc` site twice in the same
frame over the same enclosing local (`c3S0`, capture `Stack(0)` of the live
local `Int 7`) produces two sibling closures whose upvalue vectors hold
*different* cells — cell 0 and cell 1 — so they do not share one upvalue
cell by pointer equality as the claim states. -/
theorem sibling_closures_distinct_cells :
    step c3S0 = some c3S1 ∧ step c3S1 = some c3S2 ∧
    c3S2.closures.get? 1 = some ⟨0, [0]⟩ ∧
    c3S2.closures.get? 2 = some ⟨0, [1]⟩ ∧
    (0 : Nat) ≠ 1 := by
  refine ⟨by decide, by decide, by decide, by decide, by decide⟩

/-- Witness for `sibling_closures_same_slot` at the concrete two-`PushFunc`
run `c3S0 → c3S1 → c3S2`. -/
theorem sibling_closures_same_slot_witness :
    c3S2.closures.get? 1 = some ⟨0, [0]⟩ ∧
    c3S2.closures.get? 2 = some ⟨0, [1]⟩ ∧
    (0 : Nat) ≠ 0 + 1 ∧
    c3S2.cells.get? 0 = some (.stack 0) ∧
    c3S2.cells.get? 1 = some (.stack 0) ∧
    ∃ l, refGet c3S2.refMap 0 = some l ∧ 0 ∈ l ∧ 1 ∈ l := by
  have h := sibling_closures_same_slot c3S0 c3S1 c3S2 ⟨1, []⟩ c3Entry c3F
    [0, 0, 0, 2] 0 rfl rfl rfl rfl rfl rfl rfl rfl (by decide) (by decide)
  exact h

theorem step_pushFunc_nocapture (s : VMState) (curCl : Closure)
    (curF tf : Func) (bs : List Nat)
    (hcl : s.closures.get? s.call.closure = some curCl)
    (hf : s.funcs.get? curCl.funcIdx = some curF)
    (hop : curF.bytecode.get? s.call.pc = some 15)
    (hbs : readBytes curF.bytecode (s.call.pc + 1) 4 = some bs)
    (htf : s.funcs.get? (usizeSub s.funcs.length (beU32 bs)) = some tf)
    (hsc : tf.closure_scope = []) :
    step s = some { s with
      stack := s.stack ++ [.closure s.closures.length],
      closures := s.closures ++
        [⟨usizeSub s.funcs.length (beU32 bs), []⟩],
      call := { s.call with pc := s.call.pc + 5 } } := by
  simp only [step, hcl, hf, hop, Opcode.ofByte, execOp, hbs, htf, hsc,
    buildCvs]

/-- C1 (amended): the `Program`'s function table places the entry
("top-level") function at the *last* index — `Parser::parse` appends the
completed top-level function (the one ending in `Finish`) after all nested
functions — and a `PushFunc` instruction with operand `i` constructs a
closure of the function at index `len - i` of the table
(`funcs[funcs.len() - func_id]`), not at index `i`. -/
theorem entry_last_pushfunc_indexing :
    (∀ (src : String) (fs : List CompletedFunc),
      Parser.parse src = .ok fs →
      ∃ pre entry, fs = pre ++ [entry] ∧
        entry.bytecode.getLast? = some Opcode.finish.toByte) ∧
    (∀ (s : VMState) (curCl : Closure) (curF tf : Func) (bs : List Nat),
      s.closures.get? s.call.closure = some curCl →
      s.funcs.get? curCl.funcIdx = some curF →
      curF.bytecode.get? s.call.pc = some 15 →
      readBytes curF.bytecode (s.call.pc + 1) 4 = some bs →
      s.funcs.get? (usizeSub s.funcs.length (beU32 bs)) = some tf →
      tf.closure_scope = [] →
      step s = some { s with
        stack := s.stack ++ [.closure s.closures.length],
        closures := s.closures ++
          [⟨usizeSub s.funcs.length (beU32 bs), []⟩],
        call := { s.call with pc := s.call.pc + 5 } }) := by
  constructor
  · intro src fs h
    unfold Parser.parse at h
    dsimp only at h
    split at h
    · exact Except.noConfusion h
    · rename_i st hst
      obtain rfl := Except.ok.inj h
      exact ⟨st.finishedFuncs, _, rfl, List.getLast?_concat _⟩
  · intro s curCl curF tf bs hcl hf hop hbs htf hsc
    exact step_pushFunc_nocapture s curCl curF tf bs hcl hf hop hbs htf hsc

set_option maxRecDepth 100000 in
/-- C1 counterexample: parsing `var f = func() none` yields a table whose
index 0 holds the *nested* function (`PushNone; PopStore 0; Return`) while
the entry (top-level, the function with the `PushFunc` and scope `["f"]`,
ending in `Finish`) sits at index 1, not index 0; and executing `PushFunc`
with operand 1 over a 3-entry table constructs a closure of `funcs[2]`
(`len - 1`), not of `funcs[1]` as the claim states. -/
theorem entry_index_counterexample :
    Parser.parse "var f = func() none" =
      .ok [⟨[14, 19, 0, 26], 0, [""], []⟩,
           ⟨[15, 0, 0, 0, 0, 27], 0, ["f"], []⟩] ∧
    step c1S = some c1S' ∧
    c1S'.closures.get? 1 = some ⟨2, []⟩ ∧
    (2 : Nat) ≠ 1 := by
  refine ⟨by rfl, by decide, by decide, by decide⟩

set_option maxRecDepth 100000 in
/-- Witness for `entry_last_pushfunc_indexing`: the single-statement
program `print 1` compiles to a table ending in the `Finish` function, and
the concrete `PushFunc 1` over a 3-entry table pushes a closure of
`funcs[2]`. -/
theorem entry_last_pushfunc_indexing_witness :
    (∃ pre entry,
      ([⟨pushIntBc 1 ++ [20, 27], 0, [], []⟩] : List CompletedFunc) =
        pre ++ [entry] ∧
      entry.bytecode.getLast? = some Opcode.finish.toByte) ∧
    step c1S = some c1S' := by
  constructor
  · exact entry_last_pushfunc_indexing.1 "print 1" _ (by rfl)
  · have h := entry_last_pushfunc_indexing.2 c1S ⟨0, []⟩
      ⟨[15, 0, 0, 0, 1], 0, [], []⟩ ⟨[26], 2, [], []⟩ [0, 0, 0, 1]
      rfl rfl rfl rfl rfl rfl
    exact h.trans (by decide)

theorem popV_mem {st : List Value} {v : Value} {st' : List Value}
    (h : popV st = some (v, st')) : v ∈ st ∧ ∀ w ∈ st', w ∈ st := by
  unfold popV at h
  split at h
  · exact Option.noConfusion h
  · rename_i v0 heq
    obtain ⟨rfl, rfl⟩ := Prod.mk.injEq .. ▸ Option.some.inj h
    exact ⟨List.mem_of_mem_getLast? heq,
           fun w hw => List.dropLast_subset _ hw⟩

theorem arithmeticOp_floatFree {s : VMState} {pc' : Nat}
    {io : Int → Int → Option Int} {fo : F64 → F64 → F64} {t : VMState}
    (h : arithmeticOp s pc' io fo = some t) (hs : FloatFree s) :
    FloatFree t := by
  obtain ⟨hstk, hbox, hlst⟩ := hs
  unfold arithmeticOp at h
  split at h
  · exact Option.noConfusion h
  · rename_i a st1 hpop1
    split at h
    · exact Option.noConfusion h
    · rename_i b st2 hpop2
      obtain ⟨ha1, ha2⟩ := popV_mem hpop1
      obtain ⟨hb1, hb2⟩ := popV_mem hpop2
      split at h
      · obtain ⟨r, _, rfl⟩ := Option.map_eq_some'.mp h
        refine ⟨?_, hbox, hlst⟩
        intro v hv
        rcases List.mem_append.mp hv with hv | hv
        · exact hstk v (ha2 _ (hb2 _ hv))
        · obtain rfl := List.mem_singleton.mp hv
          rfl
      · exact absurd (hstk _ (ha2 _ hb1)) (by simp [isFloat])
      · exact absurd (hstk _ ha1) (by simp [isFloat])
      · exact absurd (hstk _ ha1) (by simp [isFloat])
      · exact Option.noConfusion h

theorem comparisonOp_floatFree {s : VMState} {pc' : Nat}
    {f : Ordering → Bool} {t : VMState}
    (h : comparisonOp s pc' f = some t) (hs : FloatFree s) : FloatFree t := by
  obtain ⟨hstk, hbox, hlst⟩ := hs
  unfold comparisonOp at h
  split at h
  · exact Option.noConfusion h
  · rename_i p1 st1 hpop1
    split at h
    · exact Option.noConfusion h
    · rename_i p2 st2 hpop2
      obtain ⟨_, ha2⟩ := popV_mem hpop1
      obtain ⟨_, hb2⟩ := popV_mem hpop2
      split at h
      · exact Option.noConfusion h
      · obtain rfl := Option.some.inj h
        refine ⟨?_, hbox, hlst⟩
        intro v hv
        rcases List.mem_append.mp hv with hv | hv
        · exact hstk v (ha2 _ (hb2 _ hv))
        · obtain rfl := List.mem_singleton.mp hv
          rfl

theorem dropOne_floatFree {s t : VMState} (h : dropOne s = some t)
    (hs : FloatFree s) : FloatFree t := by
  obtain ⟨hstk, hbox, hlst⟩ := hs
  unfold dropOne at h
  dsimp only at h
  split at h
  · exact Option.noConfusion h
  · rename_i v st hpop
    obtain ⟨hv1, hv2⟩ := popV_mem hpop
    split at h
    · obtain rfl := Option.some.inj h
      exact ⟨fun w hw => hstk w (hv2 w hw), hbox, hlst⟩
    · split at h
      · obtain rfl := Option.some.inj h
        exact ⟨fun w hw => hstk w (hv2 w hw), hbox, hlst⟩
      · obtain rfl := Option.some.inj h
        refine ⟨fun w hw => hstk w (hv2 w hw), ?_, hlst⟩
        intro w hw
        rcases List.mem_append.mp hw with hw | hw
        · exact hbox w hw
        · obtain rfl := List.mem_singleton.mp hw
          exact hstk w hv1

theorem iterDrop_floatFree {n : Nat} {s t : VMState}
    (h : iterDrop n s = some t) (hs : FloatFree s) : FloatFree t := by
  induction n generalizing s with
  | zero =>
    simp only [iterDrop] at h
    obtain rfl := Option.some.inj h
    exact hs
  | succ n ih =>
    simp only [iterDrop] at h
    split at h
    · exact Option.noConfusion h
    · rename_i s1 h1
      exact ih h (dropOne_floatFree h1 hs)

theorem ff_concat {l : List Value} (hl : ∀ v ∈ l, isFloat v = false)
    {k : Value} (hk : isFloat k = false) :
    ∀ v ∈ l ++ [k], isFloat v = false := by
  intro v hv
  rcases List.mem_append.mp hv with hv | hv
  · exact hl v hv
  · obtain rfl := List.mem_singleton.mp hv
    exact hk

theorem ff_sub {l l' : List Value} (hl : ∀ v ∈ l, isFloat v = false)
    (hsub : ∀ v ∈ l', v ∈ l) : ∀ v ∈ l', isFloat v = false :=
  fun v hv => hl v (hsub v hv)

theorem ff_set {l : List Value} (hl : ∀ v ∈ l, isFloat v = false)
    {k : Value} (hk : isFloat k = false) (n : Nat) :
    ∀ v ∈ l.set n k, isFloat v = false := by
  intro v hv
  rcases List.mem_or_eq_of_mem_set hv with hv | rfl
  · exact hl v hv
  · exact hk

theorem execOp_floatFree {s : VMState} {cl : Closure} {f : Func}
    {op : Opcode} {t : VMState} (h : execOp s cl f op = some t)
    (hs : FloatFree s) : FloatFree t := by
  cases op <;> simp only [execOp] at h
  case add => exact arithmeticOp_floatFree h hs
  case subtract => exact arithmeticOp_floatFree h hs
  case multiply => exact arithmeticOp_floatFree h hs
  case divide => exact arithmeticOp_floatFree h hs
  case modulus => exact arithmeticOp_floatFree h hs
  case less => exact comparisonOp_floatFree h hs
  case greater => exact comparisonOp_floatFree h hs
  case lessOrEqual => exact comparisonOp_floatFree h hs
  case greaterOrEqual => exact comparisonOp_floatFree h hs
  all_goals obtain ⟨hstk, hbox, hlst⟩ := hs
  case equal =>
    split at h
    · exact Option.noConfusion h
    · rename_i a st1 hpop1
      split at h
      · exact Option.noConfusion h
      · rename_i b st2 hpop2
        obtain rfl := Option.some.inj h
        exact ⟨ff_concat (ff_sub (ff_sub hstk (popV_mem hpop1).2)
          (popV_mem hpop2).2) rfl, hbox, hlst⟩
  case notEqual =>
    split at h
    · exact Option.noConfusion h
    · rename_i a st1 hpop1
      split at h
      · exact Option.noConfusion h
      · rename_i b st2 hpop2
        obtain rfl := Option.some.inj h
        exact ⟨ff_concat (ff_sub (ff_sub hstk (popV_mem hpop1).2)
          (popV_mem hpop2).2) rfl, hbox, hlst⟩
  case pushInt =>
    split at h
    · exact Option.noConfusion h
    · obtain rfl := Option.some.inj h
      exact ⟨ff_concat hstk rfl, hbox, hlst⟩
  case pushTrue =>
    obtain rfl := Option.some.inj h
    exact ⟨ff_concat hstk rfl, hbox, hlst⟩
  case pushFalse =>
    obtain rfl := Option.some.inj h
    exact ⟨ff_concat hstk rfl, hbox, hlst⟩
  case pushNone =>
    obtain rfl := Option.some.inj h
    exact ⟨ff_concat hstk rfl, hbox, hlst⟩
  case pushLoad =>
    split at h
    · exact Option.noConfusion h
    · split at h
      · exact Option.noConfusion h
      · rename_i v hv
        obtain rfl := Option.some.inj h
        exact ⟨ff_concat hstk (hstk v (List.get?_mem hv)), hbox, hlst⟩
  case pushClosureLoad =>
    split at h
    · exact Option.noConfusion h
    · split at h
      · exact Option.noConfusion h
      · split at h
        · exact Option.noConfusion h
        · split at h
          · exact Option.noConfusion h
          · rename_i v hv
            obtain rfl := Option.some.inj h
            exact ⟨ff_concat hstk (hstk v (List.get?_mem hv)), hbox, hlst⟩
        · split at h
          · exact Option.noConfusion h
          · rename_i v hv
            obtain rfl := Option.some.inj h
            exact ⟨ff_concat hstk (hbox v (List.get?_mem hv)), hbox, hlst⟩
  case pushFunc =>
    split at h
    · exact Option.noConfusion h
    · split at h
      · exact Option.noConfusion h
      · split at h
        · exact Option.noConfusion h
        · obtain rfl := Option.some.inj h
          exact ⟨ff_concat hstk rfl, hbox, hlst⟩
  case pushList =>
    split at h
    · exact Option.noConfusion h
    · split at h
      · obtain rfl := Option.some.inj h
        refine ⟨ff_concat (ff_sub hstk
          (fun v hv => List.mem_of_mem_take hv)) rfl, hbox, ?_⟩
        intro l hl
        rcases List.mem_append.mp hl with hl | hl
        · exact hlst l hl
        · obtain rfl := List.mem_singleton.mp hl
          exact fun v hv => hstk v
            (List.mem_reverse.mp (List.mem_of_mem_take hv))
      · exact Option.noConfusion h
  case popStore =>
    split at h
    · exact Option.noConfusion h
    · split at h
      · exact Option.noConfusion h
      · rename_i v st hpop
        split at h
        · obtain rfl := Option.some.inj h
          obtain ⟨hv1, hv2⟩ := popV_mem hpop
          exact ⟨ff_set (ff_sub hstk hv2) (hstk v hv1) _, hbox, hlst⟩
        · exact Option.noConfusion h
  case popClosureStore =>
    split at h
    · exact Option.noConfusion h
    · split at h
      · exact Option.noConfusion h
      · rename_i v st hpop
        split at h
        · exact Option.noConfusion h
        · split at h
          · exact Option.noConfusion h
          · split at h
            · obtain rfl := Option.some.inj h
              obtain ⟨hv1, hv2⟩ := popV_mem hpop
              exact ⟨ff_set (ff_sub hstk hv2) (hstk v hv1) _, hbox, hlst⟩
            · exact Option.noConfusion h
          · obtain rfl := Option.some.inj h
            obtain ⟨hv1, hv2⟩ := popV_mem hpop
            exact ⟨ff_sub hstk hv2, ff_set hbox (hstk v hv1) _, hlst⟩
  case popPrint =>
    split at h
    · exact Option.noConfusion h
    · rename_i v st hpop
      obtain rfl := Option.some.inj h
      exact ⟨ff_sub hstk (popV_mem hpop).2, hbox, hlst⟩
  case jump =>
    split at h
    · exact Option.noConfusion h
    · obtain rfl := Option.some.inj h
      exact ⟨hstk, hbox, hlst⟩
  case jumpIfNot =>
    split at h
    · exact Option.noConfusion h
    · split at h
      · exact Option.noConfusion h
      · rename_i b st hpop
        obtain rfl := Option.some.inj h
        exact ⟨ff_sub hstk (popV_mem hpop).2, hbox, hlst⟩
      · exact Option.noConfusion h
  case dropN =>
    split at h
    · exact Option.noConfusion h
    · split at h
      · exact Option.noConfusion h
      · rename_i s1 heq
        obtain rfl := Option.some.inj h
        exact iterDrop_floatFree heq ⟨hstk, hbox, hlst⟩
  case call =>
    split at h
    · exact Option.noConfusion h
    · rename_i p st hpop
      split at h
      · exact Option.noConfusion h
      · split at h
        · exact Option.noConfusion h
        · split at h
          · exact Option.noConfusion h
          · split at h
            · exact Option.noConfusion h
            · obtain rfl := Option.some.inj h
              exact ⟨ff_sub hstk (popV_mem hpop).2, hbox, hlst⟩
    · exact Option.noConfusion h
  case ret =>
    split at h
    · exact Option.noConfusion h
    · rename_i s' heq
      split at h
      · exact Option.noConfusion h
      · obtain rfl := Option.some.inj h
        have hf' := iterDrop_floatFree heq ⟨hstk, hbox, hlst⟩
        exact ⟨hf'.1, hf'.2.1, hf'.2.2⟩
  case finish =>
    obtain rfl := Option.some.inj h
    exact ⟨hstk, hbox, hlst⟩

theorem step_floatFree {s t : VMState} (h : step s = some t)
    (hs : FloatFree s) : FloatFree t := by
  unfold step at h
  repeat' split at h
  all_goals try exact Option.noConfusion h
  exact execOp_floatFree h hs

theorem stepsTo_floatFree {s t : VMState} (h : StepsTo s t)
    (hs : FloatFree s) : FloatFree t := by
  induction h with
  | refl => exact hs
  | tail _ hstep ih => exact step_floatFree hstep ih

theorem initVM_floatFree {funcs : List Func} {entryIdx : Nat} {s0 : VMState}
    (h : initVM funcs entryIdx = some s0) : FloatFree s0 := by
  unfold initVM at h
  repeat' split at h
  all_goals try exact Option.noConfusion h
  obtain rfl := Option.some.inj h
  refine ⟨?_, ?_, ?_⟩ <;> intro v hv <;> exact absurd hv (List.not_mem_nil v)

/-- C10 counterexample (the claim's negation): no state reachable from
`VirtualMachine::run`'s initial state carries a `Float` on the data stack
at all — the `vm.rs` instruction set has no opcode that constructs a
`Float`, and arithmetic only yields a `Float` from a `Float` operand — so
no reachable ordered comparison has a `Float NaN` operand and the claimed
reachable abort does not exist. -/
theorem no_reachable_float :
    ¬ ∃ (funcs : List Func) (entryIdx : Nat) (s0 t : VMState) (x : F64),
      initVM funcs entryIdx = some s0 ∧ StepsTo s0 t ∧
      Value.float x ∈ t.stack := by
  rintro ⟨funcs, entryIdx, s0, t, x, hinit, hsteps, hmem⟩
  have hff := stepsTo_floatFree hsteps (initVM_floatFree hinit)
  have := hff.1 _ hmem
  simp [isFloat] at this

/-- C10 (amended): `comparison_op` is indeed partial on the Int/Float
pairings — at the explicit (unreachable) state `c10S`, executing `Less`
over operands `Float NaN` and `Int 3` aborts because
`partial_cmp(..).unwrap()` panics — but such an operand pair is not
reachable: every state reachable from `VirtualMachine::run` keeps the data
stack, the closed-upvalue boxes and the list payloads free of `Float`
values, since no instruction of this VM snapshot constructs one. -/
theorem nan_compare_aborts_unreachable :
    step c10S = Option.none ∧
    (∀ (funcs : List Func) (entryIdx : Nat) (s0 t : VMState),
      initVM funcs entryIdx = some s0 → StepsTo s0 t → FloatFree t) := by
  constructor
  · decide
  · intro funcs entryIdx s0 t hinit hsteps
    exact stepsTo_floatFree hsteps (initVM_floatFree hinit)

/-- Witness for `nan_compare_aborts_unreachable` at the concrete run state
`c10W` (= `initVM` of a `Finish`-only entry). -/
theorem nan_compare_aborts_unreachable_witness :
    step c10S = Option.none ∧ FloatFree c10W := by
  refine ⟨nan_compare_aborts_unreachable.1, ?_⟩
  exact nan_compare_aborts_unreachable.2 [⟨[27], 0, [], []⟩] 0 c10W c10W
    (by decide) Relation.ReflTransGen.refl
